import Mathlib

/-
Verification of the dimension-allocation core of pyro.contrib.funsor
(handlers/named_messenger.py and its runtime collaborator).

The handler enter/exit bodies and the two conversion interception functions
are translated from src/pyro/contrib/funsor/handlers/named_messenger.py.
The dimension-stack runtime (`_DIM_STACK`, `StackFrame`, request resolution)
is imported by that module but its source file is not part of this
repository snapshot; those definitions are modelled from the specification
(sections 3 and 4.1-4.2) and are marked as such in their doc comments.
-/

namespace PyroFunsor

/-- Association-list lookup by key: models Python dict key lookup on an
OrderedDict, whose insertion order the list preserves. -/
def lookupA {α β : Type} [DecidableEq α] : List (α × β) → α → Option β
  | [], _ => none
  | p :: t, k => if p.1 = k then some p.2 else lookupA t k

/-- Association-list update: models OrderedDict assignment, where an existing
key keeps its position and a new key is appended at the end. -/
def updA {α β : Type} [DecidableEq α] : List (α × β) → α → β → List (α × β)
  | [], k, v => [(k, v)]
  | p :: t, k, v => if p.1 = k then (k, v) :: t else p :: updA t k v

/-- The keys of an association list. -/
def keysOf {α β : Type} (l : List (α × β)) : List α := l.map Prod.fst

/-- Boolean list-as-set inclusion. -/
def subsetL {α : Type} [DecidableEq α] (xs ys : List α) : Bool :=
  xs.all (fun x => ys.any (fun y => decide (x = y)))

/-- Boolean list-as-set equality: models Python `frozenset(xs) == frozenset(ys)`. -/
def sameSet {α : Type} [DecidableEq α] (xs ys : List α) : Bool :=
  subsetL xs ys && subsetL ys xs

/-- Modelled from the spec: a single scope's bidirectional name/dim binding
table (the `StackFrame` of the dimension-stack runtime module, which is
imported by the handler module but absent from this snapshot), carrying the
history depth and the keep flag of its scope. -/
structure StackFrame where
  name_to_dim : List (String × Int)
  dim_to_name : List (Int × String)
  history : Nat
  keep : Bool
deriving DecidableEq, Repr

/-- Modelled from the spec: `write(name, dim)` inserts or overwrites the
name/dim mapping in both directions. -/
def StackFrame.write (f : StackFrame) (n : String) (d : Int) : StackFrame :=
  { f with name_to_dim := updA f.name_to_dim n d, dim_to_name := updA f.dim_to_name d n }

/-- Modelled from the spec: `free(name, dim)` removes the mapping from both
directions (the removed pair itself is returned by the caller's loop). -/
def StackFrame.free (f : StackFrame) (n : String) (d : Int) : StackFrame :=
  { f with name_to_dim := f.name_to_dim.filter (fun p => decide (p.1 ≠ n)),
           dim_to_name := f.dim_to_name.filter (fun p => decide (p.1 ≠ d)) }

/-- A brand-new empty frame, as built by `LocalNamedMessenger.__enter__`. -/
def freshFrame (history : Nat) (keep : Bool) : StackFrame :=
  ⟨[], [], history, keep⟩

/-- Modelled from the spec: the visibility class of a request (`DimType` of the
runtime module, absent from this snapshot). -/
inductive DimType where
  | LOCAL
  | GLOBAL
  | VISIBLE
deriving DecidableEq, Repr

/-- Modelled from the spec: the process-wide dimension stack (`_DIM_STACK` of
the runtime module, absent from this snapshot): the stack of active frames
(innermost first in this list), the distinguished global frame, the identity of
the handler currently owning global-frame cleanup, the iteration anchor and the
allocation cursor.  Handlers are identified by numeric ids standing for Python
object identity.  The iteration anchor is recorded but never consulted by
request resolution, whose behaviour the spec states only in terms of the
history window. -/
structure DimStack where
  frames : List StackFrame
  global_frame : StackFrame
  outermost : Option Nat
  iter_frame : Option Nat
  first_available_dim : Int
deriving DecidableEq, Repr

/-- Modelled from the spec: the frames a request of the given visibility class
may read: the current frame plus its history window for LOCAL, and the global
frame, which is always visible and checked last. -/
def DimStack.readFrames (s : DimStack) (dt : DimType) : List StackFrame :=
  match dt with
  | .LOCAL =>
    (match s.frames with
     | [] => []
     | f :: rest => f :: rest.take f.history) ++ [s.global_frame]
  | .GLOBAL => [s.global_frame]
  | .VISIBLE => [s.global_frame]

/-- Name lookup through a chain of frames, innermost first. -/
def lookupInFrames : List StackFrame → String → Option Int
  | [], _ => none
  | f :: t, n =>
    match lookupA f.name_to_dim n with
    | some d => some d
    | none => lookupInFrames t n

/-- Dim lookup through a chain of frames, innermost first. -/
def lookupDimInFrames : List StackFrame → Int → Option String
  | [], _ => none
  | f :: t, d =>
    match lookupA f.dim_to_name d with
    | some n => some n
    | none => lookupDimInFrames t d

/-- Modelled from the spec: the dims currently allocated somewhere in the
visible frame chain of a request, used to pick a fresh dim. -/
def DimStack.usedDims (s : DimStack) (dt : DimType) : List Int :=
  (s.readFrames dt).flatMap (fun f => f.dim_to_name.map Prod.fst)

/-- First dim not in `used`, counting down from `d`; `fuel` bounds the search
(with fuel = number of used dims, a free dim is always reached). -/
def findFree (used : List Int) : Nat → Int → Int
  | 0, d => d
  | fuel + 1, d => if d ∈ used then findFree used fuel (d - 1) else d

/-- Modelled from the spec: allocate the next dim counting down from the
`first_available_dim` cursor, skipping any dim used within the visible window. -/
def DimStack.allocDim (s : DimStack) (dt : DimType) : Int :=
  findFree (s.usedDims dt) (s.usedDims dt).length s.first_available_dim

/-- Little-endian base-10 digit characters of a natural number, by
fuel-bounded structural recursion (the fuel never runs out for `fuel = n`). -/
def natCharsAux : Nat → Nat → List Char
  | 0, _ => []
  | _ + 1, 0 => []
  | fuel + 1, n + 1 => Nat.digitChar ((n + 1) % 10) :: natCharsAux fuel ((n + 1) / 10)

/-- Characters of a natural number used to build a synthetic ordinal name. -/
def natChars (n : Nat) : List Char := natCharsAux n n

/-- Modelled from the spec: the synthetic ordinal name assigned when a request
carries no name (spec 4.2 step 3), derived injectively from the dim. -/
def freshName (d : Int) : String := String.mk ('_' :: natChars (-d).toNat)

/-- Modelled from the spec: write the resolved pair into the frame selected by
the visibility class: the current innermost frame for LOCAL (the global frame
standing in when no local frame is active), the global frame otherwise. -/
def DimStack.writeResolved (s : DimStack) (dt : DimType) (n : String) (d : Int) : DimStack :=
  match dt, s.frames with
  | .LOCAL, f :: rest => { s with frames := f.write n d :: rest }
  | _, _ => { s with global_frame := s.global_frame.write n d }

/-- Modelled from the spec: the central request-resolution algorithm of the
dimension stack (spec 4.2): reuse an existing binding found in the visible
window; otherwise honour an exact dim request, or allocate the next free dim
below the cursor (with a synthetic ordinal name when no name was supplied);
finally record the resolved pair in the frame of the visibility class. -/
def DimStack.request (s : DimStack) (name : Option String) (dim : Option Int)
    (dt : DimType) : (String × Int) × DimStack :=
  match name with
  | some n =>
    match lookupInFrames (s.readFrames dt) n with
    | some d => ((n, d), s.writeResolved dt n d)
    | none =>
      match dim with
      | some d => ((n, d), s.writeResolved dt n d)
      | none =>
        let d := s.allocDim dt
        ((n, d), s.writeResolved dt n d)
  | none =>
    match dim with
    | some d =>
      match lookupDimInFrames (s.readFrames dt) d with
      | some n => ((n, d), s.writeResolved dt n d)
      | none => ((freshName d, d), s.writeResolved dt (freshName d) d)
    | none =>
      let d := s.allocDim dt
      ((freshName d, d), s.writeResolved dt (freshName d) d)

/-- Resolution loop of `NamedMessenger._pyro_to_data`: each batch name is
interpreted as a request (the supplied map provides an exact dim when it has
one, `Python .get(name, None)` style) and the resolved dims are collected. -/
def resolveNames : List String → List (String × Option Int) → DimType → DimStack →
    List (String × Int) × DimStack
  | [], _, _, s => ([], s)
  | n :: t, m, dt, s =>
    let r := s.request (some n) ((lookupA m n).getD none) dt
    let rest := resolveNames t m dt r.2
    ((n, r.1.2) :: rest.1, rest.2)

/-- Resolution loop of `NamedMessenger._pyro_to_funsor`: each batch dim is
interpreted as a request (the supplied map provides a name when it has one)
and the resolved names are collected. -/
def resolveDims : List Int → List (Int × Option String) → DimType → DimStack →
    List (Int × String) × DimStack
  | [], _, _, s => ([], s)
  | d :: t, m, dt, s =>
    let r := s.request ((lookupA m d).getD none) (some d) dt
    let rest := resolveDims t m dt r.2
    ((d, r.1.1) :: rest.1, rest.2)

/-- `NamedMessenger._pyro_to_data` (named_messenger.py lines 37-57): the
to-positional conversion.  A funsor value is abstracted by its named inputs
(name/size pairs); the partial-specification check precedes all resolution. -/
def pyro_to_data (inputs : List (String × Nat)) (name_to_dim : List (String × Option Int))
    (dt : DimType) (s : DimStack) : Except String (List (String × Int) × DimStack) :=
  let batch_names := inputs.map Prod.fst
  if 0 < name_to_dim.length && !(sameSet batch_names (keysOf name_to_dim)) then
    Except.error "partially specified name_to_dim not supported"
  else
    Except.ok (resolveNames batch_names name_to_dim dt s)

/-- Event-dim count: the length of the supplied output shape, or 0 when no
output was given (`len(output.shape) if output else 0`). -/
def eventDim (output : Option (List Nat)) : Nat := (output.map List.length).getD 0

/-- Python list slice `l[:k]` including negative-stop semantics. -/
def pySliceStop (l : List Nat) (k : Int) : List Nat :=
  if 0 ≤ k then l.take k.toNat else l.take (l.length - (-k).toNat)

/-- Batch dims of a batch shape (named_messenger.py line 77): the negative
positions whose size exceeds 1, in ascending order. -/
def batchDims (bs : List Nat) : List Int :=
  (List.range bs.length).filterMap (fun i =>
    if 1 < bs.getD i 0 then some ((i : Int) - (bs.length : Int)) else none)

/-- `NamedMessenger._pyro_to_funsor` (named_messenger.py lines 59-90): the
to-named conversion.  A raw positional value is abstracted by its shape (the
`AttributeError` branch of the source, which reads `raw_value.shape`); the
batch shape is the Python slice `full_shape[:len(full_shape) - event_dim]`. -/
def pyro_to_funsor (shape : List Nat) (output : Option (List Nat))
    (dim_to_name : List (Int × Option String)) (dt : DimType) (s : DimStack) :
    Except String (List (Int × String) × DimStack) :=
  let batch_shape := pySliceStop shape ((shape.length : Int) - (eventDim output : Int))
  let batch_dims := batchDims batch_shape
  if 0 < dim_to_name.length && !(sameSet batch_dims (keysOf dim_to_name)) then
    Except.error "partially specified dim_to_name not supported"
  else
    Except.ok (resolveDims batch_dims dim_to_name dt s)

/-- The per-instance state of a handler object.  The classes of
named_messenger.py form one inheritance chain, so a single record carries the
fields of every class: the re-entrancy counter of `ReentrantMessenger` (not in
this snapshot; modelled from the spec's ref-count discipline), the stash of
`DimStackCleanupMessenger`, the frame archive of `LocalNamedMessenger`, the
stash of `GlobalNamedMessenger` and the cursor override of `BaseEnumMessenger`.
`id` stands for Python object identity. -/
structure Handler where
  id : Nat
  ref_count : Nat
  saved_dims : List (String × Int)
  history : Nat
  keep : Bool
  saved_frames : List StackFrame
  saved_globals : List (String × Int)
  first_available_dim : Option Int
  prev_first_dim : Int
deriving DecidableEq, Repr

/-- `DimStackCleanupMessenger.__enter__` (lines 18-24): on first entry while no
cleanup owner exists, claim ownership, write every stashed pair back into the
global frame and empty the stash; then the inherited re-entrancy count rises. -/
def cleanupEnter (h : Handler) (s : DimStack) : Handler × DimStack :=
  if h.ref_count = 0 ∧ s.outermost = none then
    ({ h with saved_dims := [], ref_count := h.ref_count + 1 },
     { s with outermost := some h.id,
              global_frame := h.saved_dims.foldl (fun g p => g.write p.1 p.2) s.global_frame })
  else
    ({ h with ref_count := h.ref_count + 1 }, s)

/-- `DimStackCleanupMessenger.__exit__` (lines 26-32): on final exit while
being the cleanup owner, release ownership, reset the cursor to -1 and stash
every global-frame binding in reversed insertion order, freeing each from the
global frame; then the re-entrancy count drops. -/
def cleanupExit (h : Handler) (s : DimStack) : Handler × DimStack :=
  if h.ref_count = 1 ∧ s.outermost = some h.id then
    ({ h with saved_dims := h.saved_dims ++ s.global_frame.name_to_dim.reverse,
              ref_count := h.ref_count - 1 },
     { s with outermost := none,
              first_available_dim := -1,
              global_frame := s.global_frame.name_to_dim.reverse.foldl
                (fun g p => g.free p.1 p.2) s.global_frame })
  else
    ({ h with ref_count := h.ref_count - 1 }, s)

/-- `LocalNamedMessenger.__enter__` (lines 126-136): push the most recently
archived frame when `keep` is set and one exists, else a brand-new frame; the
inherited cleanup entry then runs. -/
def localEnter (h : Handler) (s : DimStack) : Handler × DimStack :=
  match h.keep, h.saved_frames with
  | true, frame :: rest =>
    cleanupEnter { h with saved_frames := rest } { s with frames := frame :: s.frames }
  | _, _ =>
    cleanupEnter h { s with frames := freshFrame h.history h.keep :: s.frames }

/-- `LocalNamedMessenger.__exit__` (lines 138-143): pop the current frame,
archiving it when `keep` is set; the inherited cleanup exit then runs. -/
def localExit (h : Handler) (s : DimStack) : Handler × DimStack :=
  let popped := s.frames.headD (freshFrame h.history h.keep)
  let h1 := if h.keep then { h with saved_frames := popped :: h.saved_frames } else h
  cleanupExit h1 { s with frames := s.frames.tail }

/-- `GlobalNamedMessenger.__enter__` (lines 152-157): on first entry, write the
stashed global pairs back into the global frame and empty the stash; the
inherited cleanup entry then runs. -/
def globalEnter (h : Handler) (s : DimStack) : Handler × DimStack :=
  if h.ref_count = 0 then
    cleanupEnter { h with saved_globals := [] }
      { s with global_frame := h.saved_globals.foldl (fun g p => g.write p.1 p.2) s.global_frame }
  else
    cleanupEnter h s

/-- `GlobalNamedMessenger.__exit__` (lines 159-163): on final exit, free every
stashed pair from the global frame (the stash itself is kept for the next
entry); the inherited cleanup exit then runs. -/
def globalExit (h : Handler) (s : DimStack) : Handler × DimStack :=
  if h.ref_count = 1 then
    cleanupExit h
      { s with global_frame := h.saved_globals.foldl (fun g p => g.free p.1 p.2) s.global_frame }
  else
    cleanupExit h s

/-- `GlobalNamedMessenger._pyro_post_to_funsor` / `_pyro_post_to_data`
(lines 165-173): after a conversion of GLOBAL or VISIBLE type, stash the
current global-frame dim of every name of the converted value. -/
def globalPostStash (h : Handler) (s : DimStack) (names : List String) (dt : DimType) : Handler :=
  if dt = DimType.GLOBAL ∨ dt = DimType.VISIBLE then
    { h with saved_globals := h.saved_globals ++
        names.map (fun n => (n, (lookupA s.global_frame.name_to_dim n).getD 0)) }
  else h

/-- `BaseEnumMessenger.__enter__` (lines 185-188): on first entry with an
explicit cursor override, save the previous cursor and install the override;
the inherited cleanup entry then runs. -/
def enumEnter (h : Handler) (s : DimStack) : Handler × DimStack :=
  match h.first_available_dim with
  | some fad =>
    if h.ref_count = 0 then
      cleanupEnter { h with prev_first_dim := s.first_available_dim }
        { s with first_available_dim := fad }
    else
      cleanupEnter h s
  | none => cleanupEnter h s

/-- `BaseEnumMessenger.__exit__` (lines 190-193): on final exit with an
explicit cursor override, restore the saved cursor; the inherited cleanup exit
then runs. -/
def enumExit (h : Handler) (s : DimStack) : Handler × DimStack :=
  match h.first_available_dim with
  | some _ =>
    if h.ref_count = 1 then
      cleanupExit h { s with first_available_dim := h.prev_first_dim }
    else
      cleanupExit h s
  | none => cleanupExit h s

/-- The empty global frame at program start. -/
def globalFrame0 : StackFrame := ⟨[], [], 0, true⟩

/-- Name-to-dim chain assigning consecutive dims counting down from `-(j+1)`:
the frame contents produced by a clean run of the to-positional conversion. -/
def chainNTD : Nat → List String → List (String × Int)
  | _, [] => []
  | j, n :: t => (n, -((j : Int) + 1)) :: chainNTD (j + 1) t

/-- Dim-to-name chain, inverse orientation of `chainNTD`. -/
def chainDTN : Nat → List String → List (Int × String)
  | _, [] => []
  | j, n :: t => (-((j : Int) + 1), n) :: chainDTN (j + 1) t

/-- A dimension stack holding one local frame that binds the given names to
consecutive dims, inside an owned outer scope, cursor at its initial value. -/
def cleanWith (ns : List String) : DimStack :=
  { frames := [⟨chainNTD 0 ns, chainDTN 0 ns, 1, false⟩],
    global_frame := globalFrame0, outermost := some 0, iter_frame := none,
    first_available_dim := -1 }

/-- A local frame binding each listed dim to its synthetic name: the frame
contents produced by a clean run of the to-named conversion. -/
def dimFrame (ds : List Int) : StackFrame :=
  ⟨ds.map (fun d => (freshName d, d)), ds.map (fun d => (d, freshName d)), 1, false⟩

/-- A dimension stack holding one `dimFrame` local frame. -/
def dimState (ds : List Int) : DimStack :=
  { frames := [dimFrame ds], global_frame := globalFrame0, outermost := some 0,
    iter_frame := none, first_available_dim := -1 }

/-- The positional shape the external tensor layer materialises for a named
value whose names were resolved to consecutive dims -1, -2, ...: the sizes in
reverse order, so that the size of the j-th name sits at axis -(j+1). -/
def materialShape (inputs : List (String × Nat)) : List Nat :=
  (inputs.map Prod.snd).reverse

/-- The dim-to-name map the to-named conversion recovers from the positional
value materialised for `inputs`: each batch dim back to the name whose slot it
is (`-(j+1)` back to the j-th name). -/
def namedBack (inputs : List (String × Nat)) : List (Int × String) :=
  (batchDims (materialShape inputs)).map
    (fun d => (d, (inputs.map Prod.fst).getD ((-d).toNat - 1) ""))

/-- The size a shape carries at a negative axis position (Python `shape[d]`). -/
def dimSize (shape : List Nat) (d : Int) : Nat :=
  shape.getD ((shape.length : Int) + d).toNat 0

/-- The iterated `LocalNamedMessenger` of the iteration scenario
(`pyro.markov(range(n))` with `history=1`, `keep=False`). -/
def iterHandler : Handler :=
  { id := 1, ref_count := 0, saved_dims := [], history := 1, keep := false,
    saved_frames := [], saved_globals := [], first_available_dim := none,
    prev_first_dim := -1 }

/-- The dimension stack at the start of the iteration scenario: inside an
enclosing handler that owns cleanup, no local frame yet, cursor -1. -/
def iterInit : DimStack :=
  { frames := [], global_frame := globalFrame0, outermost := some 0, iter_frame := none,
    first_available_dim := -1 }

/-- One step of the iteration scenario of test_named_handlers.test_iteration:
re-enter the local scope (the iteration accumulates entries without exiting),
convert a value named with the fresh per-step name `f i`, then one named with
the reused name "a"; the two resolved dims are returned with the new state. -/
def iterStep (f : Nat → String) (i : Nat) (s : DimStack) : (Int × Int) × DimStack :=
  let s1 := (localEnter iterHandler s).2
  match pyro_to_data [(f i, 2)] [] DimType.LOCAL s1 with
  | Except.ok (m1, s2) =>
    match pyro_to_data [("a", 2)] [] DimType.LOCAL s2 with
    | Except.ok (m2, s3) => (((lookupA m1 (f i)).getD 0, (lookupA m2 "a").getD 0), s3)
    | Except.error _ => ((0, 0), s2)
  | Except.error _ => ((0, 0), s1)

/-- The dimension stack after `n` steps of the iteration scenario. -/
def iterState (f : Nat → String) : Nat → DimStack
  | 0 => iterInit
  | n + 1 => (iterStep f n (iterState f n)).2

/-- The two dims observed at step `n` of the iteration scenario. -/
def iterDims (f : Nat → String) (n : Nat) : Int × Int :=
  (iterStep f n (iterState f n)).1

/-- A dimension stack of the iteration scenario holding the given frames. -/
def mkIter (fs : List StackFrame) : DimStack :=
  { frames := fs, global_frame := globalFrame0, outermost := some 0, iter_frame := none,
    first_available_dim := -1 }

/-- The dim the fresh per-step name receives at step `n`: the outermost
available position -1 at even steps, two slots further at odd steps. -/
def dimAt (n : Nat) : Int := if n % 2 = 0 then -1 else -3

/-- The local frame contents after step `n` of the iteration scenario. -/
def stepFrame (f : Nat → String) (n : Nat) : StackFrame :=
  ⟨[(f n, dimAt n), ("a", -2)], [(dimAt n, f n), (-2, "a")], 1, false⟩

/-- A cleanup handler instance that is the current owner, at its final exit. -/
def demoOwner : Handler :=
  { id := 7, ref_count := 1, saved_dims := [], history := 1, keep := false,
    saved_frames := [], saved_globals := [], first_available_dim := none,
    prev_first_dim := -1 }

/-- A dimension stack owned by `demoOwner`, with two global bindings live. -/
def demoOwnedStack : DimStack :=
  { frames := [], global_frame := ⟨[("x", -1), ("y", -2)], [(-1, "x"), (-2, "y")], 0, true⟩,
    outermost := some 7, iter_frame := none, first_available_dim := -5 }

/-- A keep-mode local handler with one archived frame. -/
def demoKeepHandler : Handler :=
  { id := 3, ref_count := 0, saved_dims := [], history := 1, keep := true,
    saved_frames := [⟨[("k", -1)], [(-1, "k")], 1, true⟩], saved_globals := [],
    first_available_dim := none, prev_first_dim := -1 }

/-- A global-binding handler at final exit, with one stashed global pair. -/
def demoGlobalHandler : Handler :=
  { id := 5, ref_count := 1, saved_dims := [], history := 1, keep := false,
    saved_frames := [], saved_globals := [("g", -1)], first_available_dim := none,
    prev_first_dim := -1 }

/-- A dimension stack with no active cleanup owner. -/
def freeStack : DimStack :=
  { frames := [], global_frame := globalFrame0, outermost := none, iter_frame := none,
    first_available_dim := -1 }

/-- An enumeration handler constructed with an explicit cursor override. -/
def demoEnumHandler : Handler :=
  { id := 2, ref_count := 0, saved_dims := [], history := 1, keep := false,
    saved_frames := [], saved_globals := [], first_available_dim := some (-4),
    prev_first_dim := 0 }

/-! Basic facts about the boolean set comparison used by the validation check. -/

theorem subsetL_eq_false_of {α : Type} [DecidableEq α] {xs ys : List α} {x : α}
    (hx : x ∈ xs) (hy : x ∉ ys) : subsetL xs ys = false := by
  rw [subsetL, Bool.eq_false_iff]
  intro hall
  rw [List.all_eq_true] at hall
  have h2 := hall x hx
  rw [List.any_eq_true] at h2
  obtain ⟨y, hmem, hxy⟩ := h2
  exact hy ((of_decide_eq_true hxy) ▸ hmem)

theorem sameSet_eq_false_left {α : Type} [DecidableEq α] {xs ys : List α} {x : α}
    (hx : x ∈ xs) (hy : x ∉ ys) : sameSet xs ys = false := by
  rw [sameSet, subsetL_eq_false_of hx hy, Bool.false_and]

theorem sameSet_eq_false_right {α : Type} [DecidableEq α] {xs ys : List α} {y : α}
    (hy : y ∈ ys) (hx : y ∉ xs) : sameSet xs ys = false := by
  rw [sameSet, subsetL_eq_false_of hy hx, Bool.and_false]

/-- C1: a non-empty name-to-dim map missing at least one of the value's batch
names makes the to-positional conversion fail immediately with the
unsupported-partial-specification error, and a non-empty dim-to-name map
missing at least one batch dim does the same to the to-named conversion. -/
theorem claim1_partial_map_rejected (inputs : List (String × Nat))
    (ntd : List (String × Option Int)) (shape : List Nat) (output : Option (List Nat))
    (dtn : List (Int × Option String)) (dt : DimType) (s : DimStack) :
    (ntd ≠ [] → (∃ n ∈ inputs.map Prod.fst, n ∉ keysOf ntd) →
      pyro_to_data inputs ntd dt s =
        Except.error "partially specified name_to_dim not supported") ∧
    (dtn ≠ [] →
      (∃ d ∈ batchDims (pySliceStop shape ((shape.length : Int) - (eventDim output : Int))),
        d ∉ keysOf dtn) →
      pyro_to_funsor shape output dtn dt s =
        Except.error "partially specified dim_to_name not supported") := by
  constructor
  · rintro hne ⟨n, hn, hnk⟩
    have hlen : 0 < ntd.length := List.length_pos.mpr hne
    have hss := sameSet_eq_false_left hn hnk
    simp [pyro_to_data, hss, hlen]
  · rintro hne ⟨d, hd, hdk⟩
    have hlen : 0 < dtn.length := List.length_pos.mpr hne
    have hss := sameSet_eq_false_left hd hdk
    simp [pyro_to_funsor, hss, hlen]

theorem claim1_witness :
    pyro_to_data [("a", 2), ("b", 2)] [("a", some (-1))] DimType.LOCAL (cleanWith []) =
      Except.error "partially specified name_to_dim not supported" ∧
    pyro_to_funsor [2, 2] none [(-1, some "x")] DimType.LOCAL (cleanWith []) =
      Except.error "partially specified dim_to_name not supported" := by
  have h := claim1_partial_map_rejected [("a", 2), ("b", 2)] [("a", some (-1))]
    [2, 2] none [(-1, some "x")] DimType.LOCAL (cleanWith [])
  exact ⟨h.1 (by decide) ⟨"b", by decide, by decide⟩, h.2 (by decide) ⟨-2, by decide, by decide⟩⟩

/-- C10: a non-empty map whose keys strictly cover the batch names (every batch
name is present but some extra key is not a batch name) is rejected with the
same unsupported-partial-specification error: the check demands exact set
equality, not mere coverage; likewise for the dim-to-name map. -/
theorem claim10_superset_map_rejected (inputs : List (String × Nat))
    (ntd : List (String × Option Int)) (shape : List Nat) (output : Option (List Nat))
    (dtn : List (Int × Option String)) (dt : DimType) (s : DimStack) :
    ((∀ n ∈ inputs.map Prod.fst, n ∈ keysOf ntd) →
      (∃ k ∈ keysOf ntd, k ∉ inputs.map Prod.fst) →
      pyro_to_data inputs ntd dt s =
        Except.error "partially specified name_to_dim not supported") ∧
    ((∀ d ∈ batchDims (pySliceStop shape ((shape.length : Int) - (eventDim output : Int))),
        d ∈ keysOf dtn) →
      (∃ k ∈ keysOf dtn,
        k ∉ batchDims (pySliceStop shape ((shape.length : Int) - (eventDim output : Int)))) →
      pyro_to_funsor shape output dtn dt s =
        Except.error "partially specified dim_to_name not supported") := by
  constructor
  · rintro _ ⟨k, hk, hkn⟩
    have hlen : 0 < ntd.length := by
      cases ntd with
      | nil => cases hk
      | cons p t => simp
    have hss := sameSet_eq_false_right hk hkn
    simp [pyro_to_data, hss, hlen]
  · rintro _ ⟨k, hk, hkn⟩
    have hlen : 0 < dtn.length := by
      cases dtn with
      | nil => cases hk
      | cons p t => simp
    have hss := sameSet_eq_false_right hk hkn
    simp [pyro_to_funsor, hss, hlen]

theorem claim10_witness :
    pyro_to_data [("a", 2)] [("a", some (-1)), ("b", some (-2))] DimType.LOCAL (cleanWith []) =
      Except.error "partially specified name_to_dim not supported" ∧
    pyro_to_funsor [2] none [(-1, some "x"), (-2, some "y")] DimType.LOCAL (cleanWith []) =
      Except.error "partially specified dim_to_name not supported" := by
  have h := claim10_superset_map_rejected [("a", 2)] [("a", some (-1)), ("b", some (-2))]
    [2] none [(-1, some "x"), (-2, some "y")] DimType.LOCAL (cleanWith [])
  exact ⟨h.1 (by decide) ⟨"b", by decide, by decide⟩, h.2 (by decide) ⟨-2, by decide, by decide⟩⟩

/-! Facts about the batch-dim computation of the to-named conversion. -/

theorem resolveDims_keys (ds : List Int) (m : List (Int × Option String)) (dt : DimType)
    (s : DimStack) : (resolveDims ds m dt s).1.map Prod.fst = ds := by
  induction ds generalizing s with
  | nil => rfl
  | cons d t ih => simp [resolveDims, ih]

theorem mem_batchDims {bs : List Nat} {d : Int} :
    d ∈ batchDims bs ↔
      ∃ i : Nat, i < bs.length ∧ d = (i : Int) - (bs.length : Int) ∧ 1 < bs.getD i 0 := by
  simp only [batchDims, List.mem_filterMap, List.mem_range]
  constructor
  · rintro ⟨i, hi, hf⟩
    by_cases h : 1 < bs.getD i 0
    · rw [if_pos h] at hf
      injection hf with hf
      exact ⟨i, hi, hf.symm, h⟩
    · rw [if_neg h] at hf
      exact Option.noConfusion hf
  · rintro ⟨i, hi, hd, hsz⟩
    exact ⟨i, hi, by rw [if_pos hsz, hd]⟩

theorem pySliceStop_of_le {l : List Nat} {ed : Nat} (h : ed ≤ l.length) :
    pySliceStop l ((l.length : Int) - (ed : Int)) = l.take (l.length - ed) := by
  unfold pySliceStop
  rw [if_pos (by omega)]
  congr 1
  omega

/-- C9 (amended): provided the supplied output shape is not longer than the
value's shape, the batch dims the to-named conversion resolves to names are
exactly the negative positions of the batch shape (the full shape with the
last event_dim axes removed) whose size exceeds 1; size-1 positions and event
positions are never resolved.  (Without that proviso the code computes the
Python slice `shape[:len(shape)-event_dim]`, which keeps leading axes the
claim would remove; see the counterexample.) -/
theorem claim9_to_named_batch_dims (shape : List Nat) (output : Option (List Nat))
    (dt : DimType) (s : DimStack) (hed : eventDim output ≤ shape.length) :
    (∃ dtn s', pyro_to_funsor shape output [] dt s = Except.ok (dtn, s') ∧
        dtn.map Prod.fst = batchDims (shape.take (shape.length - eventDim output))) ∧
    (∀ d : Int, d ∈ batchDims (shape.take (shape.length - eventDim output)) ↔
        ∃ i : Nat, i < shape.length - eventDim output ∧
          d = (i : Int) - ((shape.length - eventDim output : Nat) : Int) ∧
          1 < shape.getD i 0) := by
  have hbs := pySliceStop_of_le hed
  have hlen : (shape.take (shape.length - eventDim output)).length =
      shape.length - eventDim output := by
    rw [List.length_take]
    omega
  constructor
  · refine ⟨(resolveDims (batchDims (pySliceStop shape
        ((shape.length : Int) - (eventDim output : Int)))) [] dt s).1,
      (resolveDims (batchDims (pySliceStop shape
        ((shape.length : Int) - (eventDim output : Int)))) [] dt s).2, ?_, ?_⟩
    · simp [pyro_to_funsor]
    · rw [hbs, resolveDims_keys]
  · intro d
    rw [mem_batchDims, hlen]
    constructor
    · rintro ⟨i, hi, hd, hsz⟩
      refine ⟨i, hi, hd, ?_⟩
      rwa [List.getD_eq_getElem?_getD, List.getElem?_take_of_lt hi,
        ← List.getD_eq_getElem?_getD] at hsz
    · rintro ⟨i, hi, hd, hsz⟩
      refine ⟨i, hi, hd, ?_⟩
      rwa [List.getD_eq_getElem?_getD, List.getElem?_take_of_lt hi,
        ← List.getD_eq_getElem?_getD]

theorem claim9_witness :
    eventDim (some [3]) ≤ [2, 1, 3].length ∧
    (-2 : Int) ∈ batchDims ([2, 1, 3].take ([2, 1, 3].length - eventDim (some [3]))) := by
  have h := claim9_to_named_batch_dims [2, 1, 3] (some [3]) DimType.LOCAL (cleanWith [])
    (by decide)
  exact ⟨by decide, (h.2 (-2)).mpr ⟨0, by decide, by decide, by decide⟩⟩

/-- C9 counterexample: with shape (2,2,2) and a supplied output of event rank
4, the claim's batch shape (the full shape with the last 4 axes removed) is
empty, so no dim should be resolved; but the code slices `shape[:3-4]`, i.e.
`shape[:-1]`, keeping two axes, and resolves dims -2 and -1 to names. -/
theorem claim9_counterexample :
    (pyro_to_funsor [2, 2, 2] (some [1, 1, 1, 1]) [] DimType.LOCAL (cleanWith [])).toOption.map
        (fun r => r.1.map Prod.fst) = some [-2, -1] ∧
    batchDims (List.take ([2, 2, 2].length - eventDim (some [1, 1, 1, 1])) [2, 2, 2]) = [] ∧
    ([-2, -1] : List Int) ≠ [] := by
  refine ⟨by decide, by decide, by decide⟩

/-! Association-list lemmas. -/

theorem lookupA_eq_none_iff {α β : Type} [DecidableEq α] {l : List (α × β)} {k : α} :
    lookupA l k = none ↔ k ∉ keysOf l := by
  induction l with
  | nil => simp [lookupA, keysOf]
  | cons p t ih =>
    by_cases h : p.1 = k
    · simp [lookupA, h, keysOf]
    · simp only [lookupA, if_neg h, keysOf, List.map_cons, List.mem_cons, ih, keysOf]
      constructor
      · rintro hn (hk | hk)
        · exact h hk.symm
        · exact hn hk
      · intro hn hk
        exact hn (Or.inr hk)

theorem lookupA_updA_self {α β : Type} [DecidableEq α] (l : List (α × β)) (k : α) (v : β) :
    lookupA (updA l k v) k = some v := by
  induction l with
  | nil => simp [updA, lookupA]
  | cons p t ih =>
    by_cases h : p.1 = k
    · simp [updA, h, lookupA]
    · simp only [updA, if_neg h, lookupA]
      exact ih

theorem lookupA_updA_ne {α β : Type} [DecidableEq α] (l : List (α × β)) {k k' : α} (v : β)
    (h : k' ≠ k) : lookupA (updA l k' v) k = lookupA l k := by
  induction l with
  | nil => simp [updA, lookupA, if_neg h]
  | cons p t ih =>
    by_cases hp : p.1 = k'
    · simp only [updA, if_pos hp, lookupA]
      rw [if_neg h, if_neg (fun hc => h ((hp.symm.trans hc)))]
    · simp only [updA, if_neg hp, lookupA]
      by_cases hk : p.1 = k
      · rw [if_pos hk, if_pos hk]
      · rw [if_neg hk, if_neg hk]
        exact ih

theorem updA_of_not_mem {α β : Type} [DecidableEq α] {l : List (α × β)} {k : α}
    (h : k ∉ keysOf l) (v : β) : updA l k v = l ++ [(k, v)] := by
  induction l with
  | nil => rfl
  | cons p t ih =>
    rw [keysOf, List.map_cons, List.mem_cons] at h
    push_neg at h
    rw [updA, if_neg (fun hc => h.1 hc.symm), List.cons_append,
      ih (by rw [keysOf]; exact h.2)]

theorem updA_self {α β : Type} [DecidableEq α] {l : List (α × β)} {k : α} {v : β}
    (h : lookupA l k = some v) : updA l k v = l := by
  induction l with
  | nil => cases h
  | cons p t ih =>
    by_cases hp : p.1 = k
    · rw [lookupA, if_pos hp] at h
      injection h with h
      rw [updA, if_pos hp]
      rw [← hp, ← h]
    · rw [lookupA, if_neg hp] at h
      rw [updA, if_neg hp, ih h]

/-! Lemmas about folding frame writes and frees. -/

theorem foldl_write_name (gs : List (String × Int)) (g : StackFrame) :
    (gs.foldl (fun f p => f.write p.1 p.2) g).name_to_dim =
      gs.foldl (fun m p => updA m p.1 p.2) g.name_to_dim := by
  induction gs generalizing g with
  | nil => rfl
  | cons p t ih =>
    rw [List.foldl_cons, List.foldl_cons, ih]
    rfl

theorem lookupA_foldl_updA_not_mem {α β : Type} [DecidableEq α] (gs : List (α × β))
    (m : List (α × β)) {k : α} (h : k ∉ keysOf gs) :
    lookupA (gs.foldl (fun acc q => updA acc q.1 q.2) m) k = lookupA m k := by
  induction gs generalizing m with
  | nil => rfl
  | cons q t ih =>
    rw [keysOf, List.map_cons, List.mem_cons] at h
    push_neg at h
    rw [List.foldl_cons, ih _ (by rw [keysOf]; exact h.2),
      lookupA_updA_ne _ _ (fun hc => h.1 hc.symm)]

theorem foldl_updA_lookup {α β : Type} [DecidableEq α] (gs : List (α × β))
    (m : List (α × β)) (hnd : (keysOf gs).Nodup) {p : α × β} (hp : p ∈ gs) :
    lookupA (gs.foldl (fun acc q => updA acc q.1 q.2) m) p.1 = some p.2 := by
  induction gs generalizing m with
  | nil => cases hp
  | cons q t ih =>
    rw [keysOf, List.map_cons, List.nodup_cons] at hnd
    rcases List.mem_cons.mp hp with hq | hq
    · subst hq
      rw [List.foldl_cons, lookupA_foldl_updA_not_mem t _ hnd.1, lookupA_updA_self]
    · rw [List.foldl_cons]
      exact ih _ hnd.2 hq

theorem foldl_free_name (gs : List (String × Int)) (g : StackFrame) :
    (gs.foldl (fun f p => f.free p.1 p.2) g).name_to_dim =
      g.name_to_dim.filter (fun q => decide (q.1 ∉ keysOf gs)) := by
  induction gs generalizing g with
  | nil =>
    rw [List.foldl_nil]
    have : ∀ q ∈ g.name_to_dim, decide (q.1 ∉ keysOf ([] : List (String × Int))) = true := by
      intro q _
      simp [keysOf]
    rw [List.filter_eq_self.mpr this]
  | cons p t ih =>
    rw [List.foldl_cons, ih]
    rw [show (g.free p.1 p.2).name_to_dim =
      g.name_to_dim.filter (fun q => decide (q.1 ≠ p.1)) from rfl]
    rw [List.filter_filter]
    apply List.filter_congr
    intro q _
    by_cases h1 : q.1 = p.1 <;> by_cases h2 : q.1 ∈ keysOf t <;>
      simp [keysOf, h1, h2]

theorem foldl_free_all (g : StackFrame) :
    (g.name_to_dim.reverse.foldl (fun f p => f.free p.1 p.2) g).name_to_dim = [] := by
  rw [foldl_free_name]
  rw [List.filter_eq_nil_iff]
  intro q hq
  simp only [decide_eq_true_eq, Decidable.not_not]
  exact List.mem_map.mpr ⟨q, List.mem_reverse.mpr hq, rfl⟩

theorem lookupA_foldl_free (gs : List (String × Int)) (g : StackFrame) {k : String}
    (hk : k ∈ keysOf gs) :
    lookupA (gs.foldl (fun f p => f.free p.1 p.2) g).name_to_dim k = none := by
  rw [foldl_free_name, lookupA_eq_none_iff]
  intro hmem
  rw [keysOf] at hmem
  obtain ⟨q, hq, hqk⟩ := List.mem_map.mp hmem
  have := (List.mem_filter.mp hq).2
  rw [decide_eq_true_eq] at this
  exact this (hqk ▸ hk)

/-- C4: on the final exit of the cleanup owner, ownership is released, the
allocation cursor is reset to its initial value -1, and every currently-bound
global-frame pair is stashed and removed from the global frame; on the next
first entry (no other owner existing), every stashed pair is written back into
the global frame and the stash is emptied. -/
theorem claim4_cleanup_final_exit (h : Handler) (s : DimStack)
    (hrc : h.ref_count = 1) (hown : s.outermost = some h.id)
    (hsav : h.saved_dims = [])
    (hnd : (keysOf s.global_frame.name_to_dim).Nodup) :
    (cleanupExit h s).2.outermost = none ∧
    (cleanupExit h s).2.first_available_dim = -1 ∧
    (cleanupExit h s).2.global_frame.name_to_dim = [] ∧
    (∀ p ∈ s.global_frame.name_to_dim, p ∈ (cleanupExit h s).1.saved_dims) ∧
    (∀ p ∈ s.global_frame.name_to_dim,
      lookupA (cleanupEnter (cleanupExit h s).1 (cleanupExit h s).2).2.global_frame.name_to_dim
        p.1 = some p.2) ∧
    (cleanupEnter (cleanupExit h s).1 (cleanupExit h s).2).1.saved_dims = [] := by
  have hc : h.ref_count = 1 ∧ s.outermost = some h.id := ⟨hrc, hown⟩
  have hexit : cleanupExit h s =
      ({ h with
          saved_dims := h.saved_dims ++ s.global_frame.name_to_dim.reverse
          ref_count := h.ref_count - 1 },
       { s with
          outermost := none
          first_available_dim := -1
          global_frame := s.global_frame.name_to_dim.reverse.foldl
            (fun g p => g.free p.1 p.2) s.global_frame }) := by
    unfold cleanupExit
    rw [if_pos hc]
  rw [hexit]
  have hc2 : h.ref_count - 1 = 0 ∧ (none : Option Nat) = none := ⟨by omega, rfl⟩
  have henter : cleanupEnter
      { h with
        saved_dims := h.saved_dims ++ s.global_frame.name_to_dim.reverse
        ref_count := h.ref_count - 1 }
      { s with
        outermost := none
        first_available_dim := -1
        global_frame := s.global_frame.name_to_dim.reverse.foldl
          (fun g p => g.free p.1 p.2) s.global_frame } =
      ({ h with saved_dims := [], ref_count := h.ref_count - 1 + 1 },
       { s with
        outermost := some h.id
        first_available_dim := -1
        global_frame := (h.saved_dims ++ s.global_frame.name_to_dim.reverse).foldl
          (fun g p => g.write p.1 p.2)
          (s.global_frame.name_to_dim.reverse.foldl
            (fun g p => g.free p.1 p.2) s.global_frame) }) := by
    unfold cleanupEnter
    rw [if_pos hc2]
  rw [henter]
  refine ⟨rfl, rfl, foldl_free_all s.global_frame, ?_, ?_, rfl⟩
  · intro p hp
    rw [hsav]
    simpa using List.mem_reverse.mpr hp
  · intro p hp
    rw [hsav, List.nil_append, foldl_write_name, foldl_free_all]
    apply foldl_updA_lookup
    · rw [show keysOf s.global_frame.name_to_dim.reverse =
        (keysOf s.global_frame.name_to_dim).reverse from (List.map_reverse _ _)]
      exact List.nodup_reverse.mpr hnd
    · exact List.mem_reverse.mpr hp

theorem claim4_witness :
    (cleanupExit demoOwner demoOwnedStack).2.outermost = none ∧
    (cleanupExit demoOwner demoOwnedStack).2.first_available_dim = -1 ∧
    (cleanupExit demoOwner demoOwnedStack).2.global_frame.name_to_dim = [] ∧
    ("x", -1) ∈ (cleanupExit demoOwner demoOwnedStack).1.saved_dims ∧
    lookupA (cleanupEnter (cleanupExit demoOwner demoOwnedStack).1
        (cleanupExit demoOwner demoOwnedStack).2).2.global_frame.name_to_dim "x" = some (-1) ∧
    (cleanupEnter (cleanupExit demoOwner demoOwnedStack).1
        (cleanupExit demoOwner demoOwnedStack).2).1.saved_dims = [] := by
  have h := claim4_cleanup_final_exit demoOwner demoOwnedStack rfl rfl rfl (by decide)
  exact ⟨h.1, h.2.1, h.2.2.1, h.2.2.2.1 ("x", -1) (by decide),
    h.2.2.2.2.1 ("x", -1) (by decide), h.2.2.2.2.2⟩

/-! Projection lemmas for the inherited cleanup entry and exit. -/

theorem cleanupEnter_frames (h : Handler) (s : DimStack) :
    (cleanupEnter h s).2.frames = s.frames := by
  unfold cleanupEnter
  split <;> rfl

theorem cleanupExit_frames (h : Handler) (s : DimStack) :
    (cleanupExit h s).2.frames = s.frames := by
  unfold cleanupExit
  split <;> rfl

theorem cleanupEnter_saved_frames (h : Handler) (s : DimStack) :
    (cleanupEnter h s).1.saved_frames = h.saved_frames := by
  unfold cleanupEnter
  split <;> rfl

theorem cleanupExit_saved_frames (h : Handler) (s : DimStack) :
    (cleanupExit h s).1.saved_frames = h.saved_frames := by
  unfold cleanupExit
  split <;> rfl

/-- C6: a keep-mode local scope handler archives the popped frame on exit and
pushes the most recently archived frame on the next entry (last-in-first-out),
replaying the prior scope's bindings verbatim; a non-keep handler pushes a
brand-new empty frame on every entry and discards the popped frame. -/
theorem claim6_keep_replay (h : Handler) (s : DimStack) :
    (h.keep = true → ∀ f rest, s.frames = f :: rest →
      (localExit h s).1.saved_frames = f :: h.saved_frames) ∧
    (h.keep = true → ∀ g gs, h.saved_frames = g :: gs →
      (localEnter h s).2.frames = g :: s.frames ∧ (localEnter h s).1.saved_frames = gs) ∧
    (h.keep = false →
      (localEnter h s).2.frames = freshFrame h.history false :: s.frames ∧
      (localExit h s).1.saved_frames = h.saved_frames) := by
  refine ⟨?_, ?_, ?_⟩
  · intro hk f rest hf
    unfold localExit
    rw [cleanupExit_saved_frames, if_pos hk, hf]
    rfl
  · intro hk g gs hsf
    unfold localEnter
    rw [hk, hsf]
    exact ⟨cleanupEnter_frames _ _, cleanupEnter_saved_frames _ _⟩
  · intro hk
    constructor
    · unfold localEnter
      rw [hk]
      cases h.saved_frames with
      | nil => rw [cleanupEnter_frames]
      | cons a t => rw [cleanupEnter_frames]
    · unfold localExit
      rw [cleanupExit_saved_frames, if_neg (by rw [hk]; exact Bool.false_ne_true)]

theorem claim6_witness :
    (localExit demoKeepHandler (cleanWith ["a"])).1.saved_frames =
      ⟨chainNTD 0 ["a"], chainDTN 0 ["a"], 1, false⟩ :: demoKeepHandler.saved_frames ∧
    (localEnter demoKeepHandler (cleanWith ["a"])).2.frames =
      ⟨[("k", -1)], [(-1, "k")], 1, true⟩ :: (cleanWith ["a"]).frames ∧
    (localEnter demoKeepHandler (cleanWith ["a"])).1.saved_frames = [] ∧
    (localEnter iterHandler (cleanWith ["a"])).2.frames =
      freshFrame 1 false :: (cleanWith ["a"]).frames ∧
    (localExit iterHandler (cleanWith ["a"])).1.saved_frames = iterHandler.saved_frames := by
  have h1 := claim6_keep_replay demoKeepHandler (cleanWith ["a"])
  have h2 := claim6_keep_replay iterHandler (cleanWith ["a"])
  have ha := h1.2.1 rfl (⟨[("k", -1)], [(-1, "k")], 1, true⟩) [] rfl
  have hb := h2.2.2 rfl
  exact ⟨h1.1 rfl _ _ rfl, ha.1, ha.2, hb.1, hb.2⟩

/-- C7: a cleanup handler entered while another instance owns cleanup does not
take ownership, does not restore its stash and does not mutate the stack on
exit either; the stack is also untouched by any non-first entry and non-final
exit, so ownership changes only at the 0-to-1 and 1-to-0 ref-count transitions
of the owning instance (and at first entry with no owner, ownership is
claimed). -/
theorem claim7_single_owner (h : Handler) (s : DimStack) (j : Nat) :
    (s.outermost = some j → j ≠ h.id →
      (cleanupEnter h s).2 = s ∧ (cleanupEnter h s).1.saved_dims = h.saved_dims ∧
      (cleanupExit h s).2 = s) ∧
    (h.ref_count ≠ 0 → (cleanupEnter h s).2 = s) ∧
    (h.ref_count ≠ 1 → (cleanupExit h s).2 = s) ∧
    (h.ref_count = 0 → s.outermost = none →
      (cleanupEnter h s).2.outermost = some h.id ∧ (cleanupEnter h s).1.ref_count = 1) := by
  refine ⟨?_, ?_, ?_, ?_⟩
  · intro hout hj
    have he : ¬(h.ref_count = 0 ∧ s.outermost = none) := by
      rintro ⟨-, hn⟩
      rw [hout] at hn
      cases hn
    have hx : ¬(h.ref_count = 1 ∧ s.outermost = some h.id) := by
      rintro ⟨-, hn⟩
      rw [hout] at hn
      injection hn with hn
      exact hj hn
    unfold cleanupEnter cleanupExit
    rw [if_neg he, if_neg hx]
    exact ⟨rfl, rfl, rfl⟩
  · intro hrc
    unfold cleanupEnter
    rw [if_neg (fun hc => hrc hc.1)]
  · intro hrc
    unfold cleanupExit
    rw [if_neg (fun hc => hrc hc.1)]
  · intro hrc hout
    unfold cleanupEnter
    rw [if_pos ⟨hrc, hout⟩]
    exact ⟨rfl, by simp [hrc]⟩

theorem claim7_witness :
    (cleanupEnter iterHandler (cleanWith [])).2 = cleanWith [] ∧
    (cleanupEnter iterHandler (cleanWith [])).1.saved_dims = iterHandler.saved_dims ∧
    (cleanupExit iterHandler (cleanWith [])).2 = cleanWith [] ∧
    (cleanupEnter iterHandler freeStack).2.outermost = some iterHandler.id ∧
    (cleanupEnter iterHandler freeStack).1.ref_count = 1 := by
  have h1 := claim7_single_owner iterHandler (cleanWith []) 0
  have h2 := claim7_single_owner iterHandler freeStack 0
  have ha := h1.1 rfl (by decide)
  have hb := h2.2.2.2 rfl rfl
  exact ⟨ha.1, ha.2.1, ha.2.2, hb.1, hb.2⟩

/-- C8: a dim-window handler with an explicit first-available-dim override
saves the previous cursor and installs the override on first entry and
restores the saved value on final exit, so a balanced enter/exit pair leaves
the cursor as it was before entry; a handler without an override leaves the
cursor unchanged throughout.  (The hypotheses are the reachable-state
invariants: the cursor sits at its initial value -1 whenever no cleanup owner
is active, and a handler with ref-count 0 is not the recorded owner.) -/
theorem claim8_enum_window (h : Handler) (s : DimStack)
    (hrc : h.ref_count = 0)
    (hinv : s.outermost = none → s.first_available_dim = -1)
    (hown : ∀ j, s.outermost = some j → j ≠ h.id) :
    ((enumExit (enumEnter h s).1 (enumEnter h s).2).2.first_available_dim =
      s.first_available_dim) ∧
    (∀ fad, h.first_available_dim = some fad →
      (enumEnter h s).2.first_available_dim = fad ∧
      (enumEnter h s).1.prev_first_dim = s.first_available_dim) ∧
    (h.first_available_dim = none →
      (enumEnter h s).2.first_available_dim = s.first_available_dim) := by
  cases hfad : h.first_available_dim with
  | some fad =>
    cases hout : s.outermost with
    | none =>
      have hfd := hinv hout
      refine ⟨?_, ?_, ?_⟩
      · simp only [enumEnter, enumExit, cleanupEnter, cleanupExit, hfad, hrc, hout]
        simp [hfd]
      · intro fad2 hf2
        injection hf2 with hf2
        subst hf2
        constructor
        · simp only [enumEnter, cleanupEnter, hfad, hrc, hout]
          simp
        · simp only [enumEnter, cleanupEnter, hfad, hrc, hout]
          simp
      · intro hnone
        exact Option.noConfusion hnone
    | some j =>
      have hj := hown j hout
      refine ⟨?_, ?_, ?_⟩
      · simp only [enumEnter, enumExit, cleanupEnter, cleanupExit, hfad, hrc, hout]
        simp [hout, hj]
      · intro fad2 hf2
        injection hf2 with hf2
        subst hf2
        constructor
        · simp only [enumEnter, cleanupEnter, hfad, hrc, hout]
          simp
        · simp only [enumEnter, cleanupEnter, hfad, hrc, hout]
          simp
      · intro hnone
        exact Option.noConfusion hnone
  | none =>
    cases hout : s.outermost with
    | none =>
      have hfd := hinv hout
      refine ⟨?_, ?_, ?_⟩
      · simp only [enumEnter, enumExit, cleanupEnter, cleanupExit, hfad, hrc, hout]
        simp [hfd]
      · intro fad2 hf2
        exact Option.noConfusion hf2
      · intro _
        simp only [enumEnter, cleanupEnter, hfad, hrc, hout]
        simp
    | some j =>
      have hj := hown j hout
      refine ⟨?_, ?_, ?_⟩
      · simp only [enumEnter, enumExit, cleanupEnter, cleanupExit, hfad, hrc, hout]
        simp [hout, hj]
      · intro fad2 hf2
        exact Option.noConfusion hf2
      · intro _
        simp only [enumEnter, cleanupEnter, hfad, hrc, hout]
        simp

theorem claim8_witness :
    (enumExit (enumEnter demoEnumHandler freeStack).1
      (enumEnter demoEnumHandler freeStack).2).2.first_available_dim =
        freeStack.first_available_dim ∧
    (enumEnter demoEnumHandler freeStack).2.first_available_dim = -4 ∧
    (enumEnter demoEnumHandler freeStack).1.prev_first_dim =
      freeStack.first_available_dim := by
  have h := claim8_enum_window demoEnumHandler freeStack rfl (fun _ => rfl)
    (by intro j hj; cases hj)
  have ha := h.2.1 (-4) rfl
  exact ⟨h.1, ha.1, ha.2⟩

/-! Lemmas about requests of GLOBAL or VISIBLE visibility. -/

theorem readFrames_global {dt : DimType} (s : DimStack) (hdt : dt ≠ DimType.LOCAL) :
    s.readFrames dt = [s.global_frame] := by
  cases dt with
  | LOCAL => exact absurd rfl hdt
  | GLOBAL => rfl
  | VISIBLE => rfl

theorem writeResolved_global {dt : DimType} (s : DimStack) (n : String) (d : Int)
    (hdt : dt ≠ DimType.LOCAL) :
    s.writeResolved dt n d = { s with global_frame := s.global_frame.write n d } := by
  cases dt with
  | LOCAL => exact absurd rfl hdt
  | GLOBAL => rfl
  | VISIBLE => rfl

theorem request_global_found {dt : DimType} (s : DimStack) (n : String) (d : Int)
    (dim : Option Int) (hdt : dt ≠ DimType.LOCAL)
    (hfound : lookupA s.global_frame.name_to_dim n = some d) :
    s.request (some n) dim dt =
      ((n, d), { s with global_frame := s.global_frame.write n d }) := by
  simp only [DimStack.request, readFrames_global s hdt, lookupInFrames, hfound,
    writeResolved_global s n d hdt]

theorem request_global_exists {dt : DimType} (s : DimStack) (n : String) (dim : Option Int)
    (hdt : dt ≠ DimType.LOCAL) :
    ∃ d, s.request (some n) dim dt =
      ((n, d), { s with global_frame := s.global_frame.write n d }) := by
  cases hl : lookupA s.global_frame.name_to_dim n with
  | some d => exact ⟨d, request_global_found s n d dim hdt hl⟩
  | none =>
    cases dim with
    | some d =>
      refine ⟨d, ?_⟩
      simp only [DimStack.request, readFrames_global s hdt, lookupInFrames, hl,
        writeResolved_global s n d hdt]
    | none =>
      refine ⟨s.allocDim dt, ?_⟩
      simp only [DimStack.request, readFrames_global s hdt, lookupInFrames, hl,
        writeResolved_global s n (s.allocDim dt) hdt]

theorem cleanupEnter_global_of_owned (h : Handler) (s : DimStack) {j : Nat}
    (hout : s.outermost = some j) :
    (cleanupEnter h s).2.global_frame = s.global_frame := by
  unfold cleanupEnter
  rw [if_neg (by rintro ⟨-, hn⟩; rw [hout] at hn; cases hn)]

/-- C5: a GLOBAL or VISIBLE request writes its resolved binding into the global
frame, and while that binding is intact every further GLOBAL or VISIBLE
resolution of the same name returns the identical dim (and keeps the binding);
the binding is untouched by nested scope entries and by non-final exits of the
global-binding handler; only the handler's final exit frees the stashed names
from the global frame, and its next first entry restores every stashed pair
verbatim.  The post-conversion hook stashes exactly the resolved pair. -/
theorem claim5_global_dim_stable (s : DimStack) (n : String) (dt : DimType)
    (hdt : dt ≠ DimType.LOCAL) :
    (∃ d, s.request (some n) none dt =
        ((n, d), { s with global_frame := s.global_frame.write n d }) ∧
      lookupA (s.request (some n) none dt).2.global_frame.name_to_dim n = some d ∧
      (∀ (s2 : DimStack) (dt2 : DimType), dt2 ≠ DimType.LOCAL →
        lookupA s2.global_frame.name_to_dim n = some d →
        (s2.request (some n) none dt2).1.2 = d ∧
        lookupA (s2.request (some n) none dt2).2.global_frame.name_to_dim n = some d) ∧
      (∀ h2 : Handler,
        (globalPostStash h2 (s.request (some n) none dt).2 [n] dt).saved_globals =
          h2.saved_globals ++ [(n, d)])) ∧
    (∀ (h : Handler) (s2 : DimStack) (j : Nat), s2.outermost = some j →
      (localEnter h s2).2.global_frame = s2.global_frame) ∧
    (∀ (h : Handler) (s2 : DimStack), h.ref_count ≠ 1 →
      (globalExit h s2).2.global_frame = s2.global_frame) ∧
    (∀ (h : Handler) (s2 : DimStack) (j : Nat), h.ref_count = 1 →
      s2.outermost = some j → j ≠ h.id →
      ∀ p ∈ h.saved_globals,
        lookupA (globalExit h s2).2.global_frame.name_to_dim p.1 = none) ∧
    (∀ (h : Handler) (s2 : DimStack) (j : Nat), h.ref_count = 0 →
      s2.outermost = some j → (keysOf h.saved_globals).Nodup →
      ∀ p ∈ h.saved_globals,
        lookupA (globalEnter h s2).2.global_frame.name_to_dim p.1 = some p.2) := by
  refine ⟨?_, ?_, ?_, ?_, ?_⟩
  · obtain ⟨d, hd⟩ := request_global_exists s n none hdt
    have hlk : lookupA (s.request (some n) none dt).2.global_frame.name_to_dim n = some d := by
      rw [hd]
      exact lookupA_updA_self _ n d
    refine ⟨d, hd, hlk, ?_, ?_⟩
    · intro s2 dt2 hdt2 hb
      rw [request_global_found s2 n d none hdt2 hb]
      exact ⟨rfl, lookupA_updA_self _ n d⟩
    · intro h2
      have hg : (dt = DimType.GLOBAL ∨ dt = DimType.VISIBLE) := by
        cases dt with
        | LOCAL => exact absurd rfl hdt
        | GLOBAL => exact Or.inl rfl
        | VISIBLE => exact Or.inr rfl
      unfold globalPostStash
      rw [if_pos hg]
      simp [hlk]
  · intro h s2 j hout
    unfold localEnter
    cases h.keep <;> cases h.saved_frames <;>
      exact cleanupEnter_global_of_owned _ _ hout
  · intro h s2 hrc
    unfold globalExit
    rw [if_neg hrc]
    unfold cleanupExit
    rw [if_neg (fun hc => hrc hc.1)]
  · intro h s2 j hrc hout hj hp hmem
    unfold globalExit
    rw [if_pos hrc]
    unfold cleanupExit
    rw [if_neg (by rintro ⟨-, hn⟩; rw [hout] at hn; injection hn with hn; exact hj hn)]
    exact lookupA_foldl_free h.saved_globals s2.global_frame
      (List.mem_map.mpr ⟨hp, hmem, rfl⟩)
  · intro h s2 j hrc hout hnd hp hmem
    have hge : (globalEnter h s2).2.global_frame =
        h.saved_globals.foldl (fun g p => g.write p.1 p.2) s2.global_frame := by
      unfold globalEnter
      rw [if_pos hrc]
      exact cleanupEnter_global_of_owned _ _ hout
    rw [hge, foldl_write_name]
    exact foldl_updA_lookup h.saved_globals _ hnd hmem

theorem claim5_witness :
    ((((cleanWith []).request (some "g") none DimType.GLOBAL).2).request
        (some "g") none DimType.VISIBLE).1.2 =
      ((cleanWith []).request (some "g") none DimType.GLOBAL).1.2 ∧
    lookupA (globalExit demoGlobalHandler (cleanWith [])).2.global_frame.name_to_dim "g" =
      none ∧
    lookupA (globalEnter { demoGlobalHandler with ref_count := 0 }
        (cleanWith [])).2.global_frame.name_to_dim "g" = some (-1) := by
  have h := claim5_global_dim_stable (cleanWith []) "g" DimType.GLOBAL (by decide)
  obtain ⟨d, hd, hlk, hstable, -⟩ := h.1
  refine ⟨?_, ?_, ?_⟩
  · rw [(hstable _ DimType.VISIBLE (by decide) hlk).1, hd]
  · exact h.2.2.2.1 demoGlobalHandler (cleanWith []) 0 rfl rfl (by decide)
      ("g", -1) (by decide)
  · exact h.2.2.2.2 { demoGlobalHandler with ref_count := 0 } (cleanWith []) 0 rfl rfl
      (by decide) ("g", -1) (by decide)

/-! Reduction lemmas for LOCAL requests and empty supplied maps. -/

theorem request_local_fresh (s : DimStack) (m : String)
    (hlk : lookupInFrames (s.readFrames DimType.LOCAL) m = none) :
    s.request (some m) none DimType.LOCAL =
      ((m, s.allocDim DimType.LOCAL),
       s.writeResolved DimType.LOCAL m (s.allocDim DimType.LOCAL)) := by
  simp only [DimStack.request, hlk]

theorem request_local_found (s : DimStack) (m : String) (d : Int)
    (hlk : lookupInFrames (s.readFrames DimType.LOCAL) m = some d) :
    s.request (some m) none DimType.LOCAL = ((m, d), s.writeResolved DimType.LOCAL m d) := by
  simp only [DimStack.request, hlk]

theorem pyro_to_data_empty_map (inputs : List (String × Nat)) (dt : DimType) (s : DimStack) :
    pyro_to_data inputs [] dt s =
      Except.ok (resolveNames (inputs.map Prod.fst) [] dt s) := by
  unfold pyro_to_data
  rw [if_neg]
  simp

theorem pyro_to_funsor_empty_map (shape : List Nat) (output : Option (List Nat))
    (dt : DimType) (s : DimStack) :
    pyro_to_funsor shape output [] dt s =
      Except.ok (resolveDims
        (batchDims (pySliceStop shape ((shape.length : Int) - (eventDim output : Int))))
        [] dt s) := by
  unfold pyro_to_funsor
  rw [if_neg]
  simp

/-! The iteration scenario: step computations. -/

theorem cleanupEnter_state_of_owned (h : Handler) (s : DimStack) {j : Nat}
    (hout : s.outermost = some j) : (cleanupEnter h s).2 = s := by
  unfold cleanupEnter
  rw [if_neg (by rintro ⟨-, hn⟩; rw [hout] at hn; cases hn)]

theorem resolveNames_one (m : String) (dt : DimType) (s : DimStack) (p : String × Int)
    (s2 : DimStack) (hreq : s.request (some m) none dt = (p, s2)) :
    resolveNames [m] [] dt s = ([(m, p.2)], s2) := by
  unfold resolveNames resolveNames
  rw [show (lookupA ([] : List (String × Option Int)) m).getD none = none from rfl, hreq]

theorem iterStep_eq (f : Nat → String) (i : Nat) (s : DimStack)
    (m1 m2 : List (String × Int)) (s2 s3 : DimStack)
    (h1 : pyro_to_data [(f i, 2)] [] DimType.LOCAL (localEnter iterHandler s).2 =
      Except.ok (m1, s2))
    (h2 : pyro_to_data [("a", 2)] [] DimType.LOCAL s2 = Except.ok (m2, s3)) :
    iterStep f i s = (((lookupA m1 (f i)).getD 0, (lookupA m2 "a").getD 0), s3) := by
  unfold iterStep
  simp only [h1, h2]

theorem iterStep_base (f : Nat → String) (ha0 : f 0 ≠ "a") :
    iterStep f 0 iterInit = ((-1, -2), mkIter [stepFrame f 0]) := by
  have h1 : (localEnter iterHandler iterInit).2 = mkIter [freshFrame 1 false] :=
    cleanupEnter_state_of_owned iterHandler _ rfl
  have hreq1 : (mkIter [freshFrame 1 false]).request (some (f 0)) none DimType.LOCAL =
      ((f 0, -1), mkIter [⟨[(f 0, -1)], [(-1, f 0)], 1, false⟩]) := by
    rw [request_local_fresh (mkIter [freshFrame 1 false]) (f 0) rfl]
    rfl
  have hreq2 : (mkIter [⟨[(f 0, -1)], [(-1, f 0)], 1, false⟩]).request
      (some "a") none DimType.LOCAL = (("a", -2), mkIter [stepFrame f 0]) := by
    have hlk : lookupInFrames
        ((mkIter [⟨[(f 0, -1)], [(-1, f 0)], 1, false⟩]).readFrames DimType.LOCAL) "a" =
        none := by
      show lookupInFrames [⟨[(f 0, -1)], [(-1, f 0)], 1, false⟩, globalFrame0] "a" = none
      simp [lookupInFrames, lookupA, globalFrame0, ha0]
    rw [request_local_fresh _ _ hlk]
    have halloc : (mkIter [⟨[(f 0, -1)], [(-1, f 0)], 1, false⟩]).allocDim DimType.LOCAL =
        -2 := rfl
    rw [halloc]
    refine Prod.ext rfl ?_
    show (mkIter [⟨[(f 0, -1)], [(-1, f 0)], 1, false⟩]).writeResolved
      DimType.LOCAL "a" (-2) = mkIter [stepFrame f 0]
    unfold DimStack.writeResolved mkIter StackFrame.write stepFrame dimAt
    simp [updA, ha0]
  have hc1 : pyro_to_data [(f 0, 2)] [] DimType.LOCAL (localEnter iterHandler iterInit).2 =
      Except.ok ([(f 0, -1)],
        mkIter [⟨[(f 0, -1)], [(-1, f 0)], 1, false⟩]) := by
    rw [h1, pyro_to_data_empty_map]
    rw [show List.map Prod.fst [(f 0, 2)] = [f 0] from rfl]
    rw [resolveNames_one (f 0) DimType.LOCAL _ _ _ hreq1]
  have hc2 : pyro_to_data [("a", 2)] [] DimType.LOCAL
      (mkIter [⟨[(f 0, -1)], [(-1, f 0)], 1, false⟩]) =
      Except.ok ([("a", -2)], mkIter [stepFrame f 0]) := by
    rw [pyro_to_data_empty_map]
    rw [show List.map Prod.fst [(("a" : String), (2 : Nat))] = ["a"] from rfl]
    rw [resolveNames_one "a" DimType.LOCAL _ _ _ hreq2]
  rw [iterStep_eq f 0 iterInit _ _ _ _ hc1 hc2]
  simp [lookupA]

theorem iterStep_compute (f : Nat → String) (n : Nat) (pn : String) (pd dnew : Int)
    (rest : List StackFrame)
    (hm1 : pn ≠ f n) (hm2 : f n ≠ "a") (hak : pn ≠ "a")
    (hff : findFree [pd, -2] 2 (-1) = dnew) (hd2 : dnew ≠ -2) :
    iterStep f n
      (mkIter (⟨[(pn, pd), ("a", -2)], [(pd, pn), (-2, "a")], 1, false⟩ :: rest)) =
      ((dnew, -2),
       mkIter (⟨[(f n, dnew), ("a", -2)], [(dnew, f n), (-2, "a")], 1, false⟩ ::
         ⟨[(pn, pd), ("a", -2)], [(pd, pn), (-2, "a")], 1, false⟩ :: rest)) := by
  have h1 : (localEnter iterHandler
      (mkIter (⟨[(pn, pd), ("a", -2)], [(pd, pn), (-2, "a")], 1, false⟩ :: rest))).2 =
      mkIter (freshFrame 1 false ::
        ⟨[(pn, pd), ("a", -2)], [(pd, pn), (-2, "a")], 1, false⟩ :: rest) :=
    cleanupEnter_state_of_owned iterHandler _ rfl
  have hlk1 : lookupInFrames ((mkIter (freshFrame 1 false ::
      ⟨[(pn, pd), ("a", -2)], [(pd, pn), (-2, "a")], 1, false⟩ :: rest)).readFrames
      DimType.LOCAL) (f n) = none := by
    show lookupInFrames [freshFrame 1 false,
      ⟨[(pn, pd), ("a", -2)], [(pd, pn), (-2, "a")], 1, false⟩, globalFrame0] (f n) = none
    simp [lookupInFrames, lookupA, freshFrame, globalFrame0, hm1, Ne.symm hm2]
  have hreq1 : (mkIter (freshFrame 1 false ::
      ⟨[(pn, pd), ("a", -2)], [(pd, pn), (-2, "a")], 1, false⟩ :: rest)).request
      (some (f n)) none DimType.LOCAL =
      ((f n, dnew), mkIter (⟨[(f n, dnew)], [(dnew, f n)], 1, false⟩ ::
        ⟨[(pn, pd), ("a", -2)], [(pd, pn), (-2, "a")], 1, false⟩ :: rest)) := by
    rw [request_local_fresh _ _ hlk1]
    have halloc : (mkIter (freshFrame 1 false ::
        ⟨[(pn, pd), ("a", -2)], [(pd, pn), (-2, "a")], 1, false⟩ :: rest)).allocDim
        DimType.LOCAL = dnew := by
      show findFree [pd, -2] 2 (-1) = dnew
      exact hff
    rw [halloc]
    rfl
  have hlk2 : lookupInFrames ((mkIter (⟨[(f n, dnew)], [(dnew, f n)], 1, false⟩ ::
      ⟨[(pn, pd), ("a", -2)], [(pd, pn), (-2, "a")], 1, false⟩ :: rest)).readFrames
      DimType.LOCAL) "a" = some (-2) := by
    show lookupInFrames [⟨[(f n, dnew)], [(dnew, f n)], 1, false⟩,
      ⟨[(pn, pd), ("a", -2)], [(pd, pn), (-2, "a")], 1, false⟩, globalFrame0] "a" = some (-2)
    simp [lookupInFrames, lookupA, hm2, hak]
  have hreq2 : (mkIter (⟨[(f n, dnew)], [(dnew, f n)], 1, false⟩ ::
      ⟨[(pn, pd), ("a", -2)], [(pd, pn), (-2, "a")], 1, false⟩ :: rest)).request
      (some "a") none DimType.LOCAL =
      (("a", -2), mkIter (⟨[(f n, dnew), ("a", -2)], [(dnew, f n), (-2, "a")], 1, false⟩ ::
        ⟨[(pn, pd), ("a", -2)], [(pd, pn), (-2, "a")], 1, false⟩ :: rest)) := by
    rw [request_local_found _ _ _ hlk2]
    refine Prod.ext rfl ?_
    show (mkIter (⟨[(f n, dnew)], [(dnew, f n)], 1, false⟩ ::
      ⟨[(pn, pd), ("a", -2)], [(pd, pn), (-2, "a")], 1, false⟩ :: rest)).writeResolved
      DimType.LOCAL "a" (-2) = _
    unfold DimStack.writeResolved StackFrame.write mkIter
    simp [updA, hm2, hd2]
  have hc1 : pyro_to_data [(f n, 2)] [] DimType.LOCAL (localEnter iterHandler
      (mkIter (⟨[(pn, pd), ("a", -2)], [(pd, pn), (-2, "a")], 1, false⟩ :: rest))).2 =
      Except.ok ([(f n, dnew)], mkIter (⟨[(f n, dnew)], [(dnew, f n)], 1, false⟩ ::
        ⟨[(pn, pd), ("a", -2)], [(pd, pn), (-2, "a")], 1, false⟩ :: rest)) := by
    rw [h1, pyro_to_data_empty_map]
    rw [show List.map Prod.fst [(f n, 2)] = [f n] from rfl]
    rw [resolveNames_one (f n) DimType.LOCAL _ _ _ hreq1]
  have hc2 : pyro_to_data [("a", 2)] [] DimType.LOCAL
      (mkIter (⟨[(f n, dnew)], [(dnew, f n)], 1, false⟩ ::
        ⟨[(pn, pd), ("a", -2)], [(pd, pn), (-2, "a")], 1, false⟩ :: rest)) =
      Except.ok ([("a", -2)],
        mkIter (⟨[(f n, dnew), ("a", -2)], [(dnew, f n), (-2, "a")], 1, false⟩ ::
          ⟨[(pn, pd), ("a", -2)], [(pd, pn), (-2, "a")], 1, false⟩ :: rest)) := by
    rw [pyro_to_data_empty_map]
    rw [show List.map Prod.fst [(("a" : String), (2 : Nat))] = ["a"] from rfl]
    rw [resolveNames_one "a" DimType.LOCAL _ _ _ hreq2]
  rw [iterStep_eq f n _ _ _ _ _ hc1 hc2]
  simp [lookupA]

theorem findFree_dimAt (k : Nat) : findFree [dimAt k, -2] 2 (-1) = dimAt (k + 1) := by
  unfold dimAt
  rcases Nat.mod_two_eq_zero_or_one k with h | h
  · have h1 : (k + 1) % 2 = 1 := by omega
    rw [h, h1]
    decide
  · have h1 : (k + 1) % 2 = 0 := by omega
    rw [h, h1]
    decide

theorem dimAt_ne_neg_two (k : Nat) : dimAt k ≠ -2 := by
  unfold dimAt
  split <;> decide

/-- Invariant of the iteration scenario: after step `n` the innermost frame
binds the step's fresh name to its alternating dim and "a" to -2, the global
frame is untouched, and the observed dims at step `n` are those two. -/
theorem iter_invariant (f : Nat → String) (n : Nat)
    (ha : ∀ i, i ≤ n → f i ≠ "a") (hf : ∀ i, i < n → f (i + 1) ≠ f i) :
    ∃ rest, iterState f (n + 1) = mkIter (stepFrame f n :: rest) ∧
      iterDims f n = (dimAt n, -2) := by
  induction n with
  | zero =>
    refine ⟨[], ?_, ?_⟩
    · show (iterStep f 0 (iterState f 0)).2 = _
      rw [show iterState f 0 = iterInit from rfl, iterStep_base f (ha 0 (Nat.le_refl 0))]
    · show (iterStep f 0 (iterState f 0)).1 = _
      rw [show iterState f 0 = iterInit from rfl, iterStep_base f (ha 0 (Nat.le_refl 0))]
      rfl
  | succ k ih =>
    obtain ⟨rest, hstate, -⟩ := ih (fun i hi => ha i (Nat.le_succ_of_le hi))
      (fun i hi => hf i (Nat.lt_succ_of_lt hi))
    have hcomp := iterStep_compute f (k + 1) (f k) (dimAt k) (dimAt (k + 1)) rest
      (Ne.symm (hf k (Nat.lt_succ_self k))) (ha (k + 1) (Nat.le_refl _))
      (ha k (Nat.le_succ_of_le (Nat.le_refl k)))
      (findFree_dimAt k) (dimAt_ne_neg_two (k + 1))
    refine ⟨stepFrame f k :: rest, ?_, ?_⟩
    · show (iterStep f (k + 1) (iterState f (k + 1))).2 = _
      rw [hstate]
      rw [show stepFrame f k =
        (⟨[(f k, dimAt k), ("a", -2)], [(dimAt k, f k), (-2, "a")], 1, false⟩ : StackFrame)
        from rfl, hcomp]
      rfl
    · show (iterStep f (k + 1) (iterState f (k + 1))).1 = _
      rw [hstate]
      rw [show stepFrame f k =
        (⟨[(f k, dimAt k), ("a", -2)], [(dimAt k, f k), (-2, "a")], 1, false⟩ : StackFrame)
        from rfl, hcomp]

/-- C2: iterating the history-1 non-keep local scope (each step a nested
re-entry), at every step the fresh per-step name resolves to the outermost
available position -1 at even steps and to -3, two slots further, at odd
steps, while the name "a", reused at every step, resolves to the same dim -2
throughout.  The per-step names must be fresh: distinct from "a" and from the
previous step's name. -/
theorem claim2_iteration_alternation (f : Nat → String) (n : Nat)
    (ha : ∀ i, i ≤ n → f i ≠ "a") (hf : ∀ i, i < n → f (i + 1) ≠ f i) :
    (iterDims f n).1 = (if n % 2 = 0 then -1 else -3) ∧ (iterDims f n).2 = -2 := by
  obtain ⟨-, -, hdims⟩ := iter_invariant f n ha hf
  rw [hdims]
  exact ⟨rfl, rfl⟩

theorem claim2_witness :
    (iterDims (fun i => String.mk (natChars i)) 3).1 = -3 ∧
    (iterDims (fun i => String.mk (natChars i)) 3).2 = -2 := by
  have h := claim2_iteration_alternation (fun i => String.mk (natChars i)) 3
    (by decide) (by decide)
  exact ⟨h.1.trans (by decide), h.2⟩

/-! Round-trip machinery: clean runs of the two conversions. -/

theorem findFree_run (used : List Int) :
    ∀ (fuel : Nat) (start : Int), (∀ i : Nat, i < fuel → start - i ∈ used) →
    (start - fuel) ∉ used → findFree used fuel start = start - fuel := by
  intro fuel
  induction fuel with
  | zero =>
    intro start _ h2
    simp [findFree]
  | succ k ih =>
    intro start h1 h2
    rw [findFree, if_pos (by simpa using h1 0 (Nat.succ_pos k))]
    have := ih (start - 1) (fun i hi => by
      have := h1 (i + 1) (by omega)
      have harith : start - (i + 1 : Nat) = start - 1 - (i : Nat) := by
        push_cast
        ring
      rwa [harith] at this)
      (by
        have harith : start - (k + 1 : Nat) = start - 1 - (k : Nat) := by
          push_cast
          ring
        rwa [harith] at h2)
    rw [this]
    push_cast
    ring

theorem chainNTD_append (j : Nat) (a b : List String) :
    chainNTD j (a ++ b) = chainNTD j a ++ chainNTD (j + a.length) b := by
  induction a generalizing j with
  | nil => simp [chainNTD]
  | cons x t ih =>
    show (x, -((j : Int) + 1)) :: chainNTD (j + 1) (t ++ b) =
      (x, -((j : Int) + 1)) :: (chainNTD (j + 1) t ++ chainNTD (j + (x :: t).length) b)
    rw [ih (j + 1), show j + (x :: t).length = j + 1 + t.length from by
      simp only [List.length_cons]; omega]

theorem chainDTN_append (j : Nat) (a b : List String) :
    chainDTN j (a ++ b) = chainDTN j a ++ chainDTN (j + a.length) b := by
  induction a generalizing j with
  | nil => simp [chainDTN]
  | cons x t ih =>
    show (-((j : Int) + 1), x) :: chainDTN (j + 1) (t ++ b) =
      (-((j : Int) + 1), x) :: (chainDTN (j + 1) t ++ chainDTN (j + (x :: t).length) b)
    rw [ih (j + 1), show j + (x :: t).length = j + 1 + t.length from by
      simp only [List.length_cons]; omega]

theorem keysOf_chainNTD (j : Nat) (ns : List String) : keysOf (chainNTD j ns) = ns := by
  induction ns generalizing j with
  | nil => rfl
  | cons x t ih => simp [chainNTD, keysOf] at ih ⊢; exact ih (j + 1)

theorem mem_keysOf_chainDTN {d : Int} (j : Nat) (ns : List String) :
    d ∈ keysOf (chainDTN j ns) ↔ ∃ i : Nat, i < ns.length ∧ d = -((j : Int) + i + 1) := by
  induction ns generalizing j with
  | nil => simp [chainDTN, keysOf]
  | cons x t ih =>
    show d ∈ -((j : Int) + 1) :: keysOf (chainDTN (j + 1) t) ↔ _
    rw [List.mem_cons, ih (j + 1)]
    constructor
    · rintro (h | ⟨i, hi, hd⟩)
      · exact ⟨0, Nat.succ_pos _, by rw [h]; push_cast; ring⟩
      · refine ⟨i + 1, by simp only [List.length_cons]; omega, ?_⟩
        rw [hd]
        push_cast
        ring
    · rintro ⟨i, hi, hd⟩
      cases i with
      | zero => exact Or.inl (by rw [hd]; push_cast; ring)
      | succ i2 =>
        refine Or.inr ⟨i2, by simp only [List.length_cons] at hi; omega, ?_⟩
        rw [hd]
        push_cast
        ring

theorem lookupA_chainNTD_not_mem {m : String} (j : Nat) (ns : List String) (h : m ∉ ns) :
    lookupA (chainNTD j ns) m = none := by
  rw [lookupA_eq_none_iff, keysOf_chainNTD]
  exact h

theorem lookupA_chainNTD_getD (j : Nat) (ns : List String) (i : Nat)
    (hnd : ns.Nodup) (hi : i < ns.length) :
    lookupA (chainNTD j ns) (ns.getD i "") = some (-((j : Int) + i + 1)) := by
  induction ns generalizing j i with
  | nil => cases hi
  | cons x t ih =>
    rw [List.nodup_cons] at hnd
    cases i with
    | zero =>
      show lookupA ((x, -((j : Int) + 1)) :: chainNTD (j + 1) t) x = _
      rw [lookupA, if_pos rfl]
      norm_num
    | succ i2 =>
      have hmem : t.getD i2 "" ∈ t := by
        rw [List.getD_eq_getElem t "" (by simpa using Nat.lt_of_succ_lt_succ hi)]
        exact List.getElem_mem _
      show lookupA ((x, -((j : Int) + 1)) :: chainNTD (j + 1) t) (t.getD i2 "") = _
      rw [lookupA, if_neg (fun hc => hnd.1
        (by rw [show x = t.getD i2 "" from hc]; exact hmem))]
      rw [ih (j + 1) i2 hnd.2 (by simpa using Nat.lt_of_succ_lt_succ hi)]
      congr 1
      push_cast
      ring

theorem lookupA_chainDTN (j : Nat) (ns : List String) (i : Nat) (hi : i < ns.length) :
    lookupA (chainDTN j ns) (-((j : Int) + i + 1)) = some (ns.getD i "") := by
  induction ns generalizing j i with
  | nil => cases hi
  | cons x t ih =>
    cases i with
    | zero =>
      show lookupA ((-((j : Int) + 1), x) :: chainDTN (j + 1) t) _ = _
      rw [lookupA, if_pos (by push_cast; ring)]
      rfl
    | succ i2 =>
      show lookupA ((-((j : Int) + 1), x) :: chainDTN (j + 1) t) _ = _
      rw [lookupA, if_neg (by intro hc; omega)]
      have := ih (j + 1) i2 (by simpa using Nat.lt_of_succ_lt_succ hi)
      rw [show -((j : Int) + (i2 + 1 : Nat) + 1) = -(((j + 1 : Nat) : Int) + i2 + 1) from by
        push_cast; ring]
      exact this

theorem chainDTN_length (j : Nat) (ns : List String) :
    (chainDTN j ns).length = ns.length := by
  induction ns generalizing j with
  | nil => rfl
  | cons x t ih => simp [chainDTN, ih (j + 1)]

theorem resolveNames_cons (m : String) (t : List String) (dt : DimType) (s : DimStack)
    (p : String × Int) (s2 : DimStack) (hreq : s.request (some m) none dt = (p, s2)) :
    resolveNames (m :: t) [] dt s =
      ((m, p.2) :: (resolveNames t [] dt s2).1, (resolveNames t [] dt s2).2) := by
  conv_lhs => rw [resolveNames]
  rw [show (lookupA ([] : List (String × Option Int)) m).getD none = none from rfl, hreq]

theorem cleanWith_used (pre : List String) :
    (cleanWith pre).usedDims DimType.LOCAL = keysOf (chainDTN 0 pre) := by
  show List.map Prod.fst (chainDTN 0 pre) ++
    (List.map Prod.fst globalFrame0.dim_to_name ++ []) = _
  simp [globalFrame0, keysOf]

theorem cleanWith_alloc (pre : List String) :
    (cleanWith pre).allocDim DimType.LOCAL = -((pre.length : Int) + 1) := by
  show findFree ((cleanWith pre).usedDims DimType.LOCAL)
    ((cleanWith pre).usedDims DimType.LOCAL).length (-1) = _
  rw [cleanWith_used]
  rw [show (keysOf (chainDTN 0 pre)).length = pre.length from by
    rw [keysOf, List.length_map, chainDTN_length]]
  rw [findFree_run (keysOf (chainDTN 0 pre)) pre.length (-1)
    (fun i hi => (mem_keysOf_chainDTN 0 pre).mpr ⟨i, hi, by push_cast; ring⟩)
    (by
      intro hmem
      obtain ⟨i, hi, hd⟩ := (mem_keysOf_chainDTN 0 pre).mp hmem
      omega)]
  ring

theorem cleanWith_request_fresh (pre : List String) (m : String) (hmpre : m ∉ pre) :
    (cleanWith pre).request (some m) none DimType.LOCAL =
      ((m, -((pre.length : Int) + 1)), cleanWith (pre ++ [m])) := by
  have hlk : lookupInFrames ((cleanWith pre).readFrames DimType.LOCAL) m = none := by
    show lookupInFrames
      [⟨chainNTD 0 pre, chainDTN 0 pre, 1, false⟩, globalFrame0] m = none
    simp [lookupInFrames, lookupA_chainNTD_not_mem 0 pre hmpre, globalFrame0, lookupA]
  rw [request_local_fresh _ _ hlk, cleanWith_alloc]
  refine Prod.ext rfl ?_
  show (⟨[(⟨chainNTD 0 pre, chainDTN 0 pre, 1, false⟩ : StackFrame).write m
      (-((pre.length : Int) + 1))], globalFrame0, some 0, none, -1⟩ : DimStack) =
    cleanWith (pre ++ [m])
  have hwname : updA (chainNTD 0 pre) m (-((pre.length : Int) + 1)) =
      chainNTD 0 (pre ++ [m]) := by
    rw [updA_of_not_mem (by rw [keysOf_chainNTD]; exact hmpre), chainNTD_append]
    simp [chainNTD]
  have hwdim : updA (chainDTN 0 pre) (-((pre.length : Int) + 1)) m =
      chainDTN 0 (pre ++ [m]) := by
    rw [updA_of_not_mem (by
      intro hmem
      obtain ⟨i, hi, hd⟩ := (mem_keysOf_chainDTN 0 pre).mp hmem
      omega), chainDTN_append]
    simp [chainDTN]
  rw [show (⟨chainNTD 0 pre, chainDTN 0 pre, 1, false⟩ : StackFrame).write m
      (-((pre.length : Int) + 1)) =
      ⟨chainNTD 0 (pre ++ [m]), chainDTN 0 (pre ++ [m]), 1, false⟩ from by
    unfold StackFrame.write
    simp only [hwname, hwdim]]
  rfl

/-- A clean run of the to-positional resolution loop: from a state whose only
local frame binds `pre` to consecutive dims, resolving the fresh names `rest`
extends the chain, assigning `-(|pre|+1)`, `-(|pre|+2)`, ... in order. -/
theorem resolve_clean : ∀ (rest pre : List String), (pre ++ rest).Nodup →
    resolveNames rest [] DimType.LOCAL (cleanWith pre) =
      (chainNTD pre.length rest, cleanWith (pre ++ rest)) := by
  intro rest
  induction rest with
  | nil =>
    intro pre _
    simp [resolveNames, chainNTD]
  | cons m t ih =>
    intro pre hnd
    have hmpre : m ∉ pre := by
      rw [List.nodup_append] at hnd
      exact fun hm => hnd.2.2 hm (List.mem_cons_self m t)
    rw [resolveNames_cons m t _ _ _ _ (cleanWith_request_fresh pre m hmpre)]
    rw [ih (pre ++ [m]) (by rw [List.append_assoc]; exact hnd)]
    refine Prod.ext ?_ ?_
    · show (m, -((pre.length : Int) + 1)) :: chainNTD (pre ++ [m]).length t =
        (m, -((pre.length : Int) + 1)) :: chainNTD (pre.length + 1) t
      rw [show (pre ++ [m]).length = pre.length + 1 from by simp]
    · show cleanWith ((pre ++ [m]) ++ t) = cleanWith (pre ++ m :: t)
      rw [List.append_assoc]
      rfl

theorem request_dim_found (s : DimStack) (d : Int) (nm : String)
    (hlk : lookupDimInFrames (s.readFrames DimType.LOCAL) d = some nm) :
    s.request none (some d) DimType.LOCAL = ((nm, d), s.writeResolved DimType.LOCAL nm d) := by
  simp only [DimStack.request, hlk]

theorem request_dim_fresh (s : DimStack) (d : Int)
    (hlk : lookupDimInFrames (s.readFrames DimType.LOCAL) d = none) :
    s.request none (some d) DimType.LOCAL =
      ((freshName d, d), s.writeResolved DimType.LOCAL (freshName d) d) := by
  simp only [DimStack.request, hlk]

theorem write_self (fr : StackFrame) (nm : String) (d : Int)
    (h1 : lookupA fr.name_to_dim nm = some d) (h2 : lookupA fr.dim_to_name d = some nm) :
    fr.write nm d = fr := by
  unfold StackFrame.write
  rw [updA_self h1, updA_self h2]

theorem resolveDims_cons (d : Int) (t : List Int) (dt : DimType) (s : DimStack)
    (p : String × Int) (s2 : DimStack) (hreq : s.request none (some d) dt = (p, s2)) :
    resolveDims (d :: t) [] dt s =
      ((d, p.1) :: (resolveDims t [] dt s2).1, (resolveDims t [] dt s2).2) := by
  conv_lhs => rw [resolveDims]
  rw [show (lookupA ([] : List (Int × Option String)) d).getD none = none from rfl, hreq]

theorem cleanWith_request_dim (ns : List String) (i : Nat) (hnd : ns.Nodup)
    (hi : i < ns.length) :
    (cleanWith ns).request none (some (-((i : Int) + 1))) DimType.LOCAL =
      ((ns.getD i "", -((i : Int) + 1)), cleanWith ns) := by
  have hcast : -(((0 : Nat) : Int) + i + 1) = -((i : Int) + 1) := by push_cast; ring
  have hname := lookupA_chainNTD_getD 0 ns i hnd hi
  rw [hcast] at hname
  have hdim := lookupA_chainDTN 0 ns i hi
  rw [hcast] at hdim
  have hlk : lookupDimInFrames ((cleanWith ns).readFrames DimType.LOCAL)
      (-((i : Int) + 1)) = some (ns.getD i "") := by
    show lookupDimInFrames
      [⟨chainNTD 0 ns, chainDTN 0 ns, 1, false⟩, globalFrame0] _ = _
    simp only [lookupDimInFrames]
    rw [hdim]
  rw [request_dim_found _ _ _ hlk]
  refine Prod.ext rfl ?_
  show (⟨[(⟨chainNTD 0 ns, chainDTN 0 ns, 1, false⟩ : StackFrame).write (ns.getD i "")
      (-((i : Int) + 1))], globalFrame0, some 0, none, -1⟩ : DimStack) = cleanWith ns
  rw [write_self ⟨chainNTD 0 ns, chainDTN 0 ns, 1, false⟩ (ns.getD i "")
    (-((i : Int) + 1)) hname hdim]
  rfl

theorem resolveDims_cleanWith (ns : List String) (hnd : ns.Nodup) :
    ∀ ds : List Int, (∀ d ∈ ds, ∃ i : Nat, i < ns.length ∧ d = -((i : Int) + 1)) →
    resolveDims ds [] DimType.LOCAL (cleanWith ns) =
      (ds.map (fun d => (d, ns.getD ((-d).toNat - 1) "")), cleanWith ns) := by
  intro ds
  induction ds with
  | nil => intro _; rfl
  | cons d t ih =>
    intro hds
    obtain ⟨i, hi, hdi⟩ := hds d (List.mem_cons_self d t)
    subst hdi
    rw [resolveDims_cons _ _ _ _ _ _ (cleanWith_request_dim ns i hnd hi)]
    rw [ih (fun x hx => hds x (List.mem_cons_of_mem _ hx))]
    refine Prod.ext ?_ rfl
    show (-((i : Int) + 1), ns.getD i "") ::
        t.map (fun d => (d, ns.getD ((-d).toNat - 1) "")) =
      (-((i : Int) + 1), ns.getD ((-(-((i : Int) + 1))).toNat - 1) "") ::
        t.map (fun d => (d, ns.getD ((-d).toNat - 1) ""))
    rw [show (-(-((i : Int) + 1))).toNat - 1 = i from by omega]

theorem filterMap_some_eq_map {α β : Type} (l : List α) (g : α → β) :
    l.filterMap (fun a => some (g a)) = l.map g := by
  induction l with
  | nil => rfl
  | cons x t ih => simp [List.filterMap_cons, ih]

theorem batchDims_all_gt (shape : List Nat) (h : ∀ x ∈ shape, 1 < x) :
    batchDims shape =
      (List.range shape.length).map (fun i : Nat => (i : Int) - (shape.length : Int)) := by
  unfold batchDims
  have hcongr : ∀ i ∈ List.range shape.length,
      (if 1 < shape.getD i 0 then some ((i : Int) - (shape.length : Int)) else none) =
        some ((i : Int) - (shape.length : Int)) := by
    intro i hi
    rw [if_pos]
    rw [List.mem_range] at hi
    rw [List.getD_eq_getElem _ _ hi]
    exact h _ (List.getElem_mem _)
  rw [List.filterMap_congr hcongr, filterMap_some_eq_map]

theorem pySliceStop_full (l : List Nat) :
    pySliceStop l ((l.length : Int) - ((0 : Nat) : Int)) = l := by
  rw [pySliceStop_of_le (Nat.zero_le _)]
  simp

/-! Injectivity of the synthetic-name encoding. -/

theorem natCharsAux_eq_digits : ∀ (fuel n : Nat), n ≤ fuel →
    natCharsAux fuel n = (Nat.digits 10 n).map Nat.digitChar := by
  intro fuel
  induction fuel with
  | zero =>
    intro n hn
    have hz : n = 0 := by omega
    subst hz
    simp [natCharsAux]
  | succ fuel ih =>
    intro n hn
    match n with
    | 0 => simp [natCharsAux]
    | m + 1 =>
      rw [show natCharsAux (fuel + 1) (m + 1) =
        Nat.digitChar ((m + 1) % 10) :: natCharsAux fuel ((m + 1) / 10) from rfl]
      rw [ih ((m + 1) / 10) (by omega)]
      rw [Nat.digits_def' (by norm_num : 1 < 10) (Nat.succ_pos m)]
      simp

theorem digitChar_inj_lt : ∀ a : Nat, a < 10 → ∀ b : Nat, b < 10 →
    Nat.digitChar a = Nat.digitChar b → a = b := by decide

theorem map_digitChar_inj : ∀ (l1 l2 : List Nat), (∀ x ∈ l1, x < 10) →
    (∀ x ∈ l2, x < 10) → l1.map Nat.digitChar = l2.map Nat.digitChar → l1 = l2 := by
  intro l1
  induction l1 with
  | nil =>
    intro l2 _ _ h
    cases l2 with
    | nil => rfl
    | cons b u =>
      rw [List.map_nil, List.map_cons] at h
      exact List.noConfusion h
  | cons a t ih =>
    intro l2 h1 h2 h
    cases l2 with
    | nil =>
      rw [List.map_cons, List.map_nil] at h
      exact List.noConfusion h
    | cons b u =>
      rw [List.map_cons, List.map_cons] at h
      injection h with hhead htail
      have hab := digitChar_inj_lt a (h1 a (List.mem_cons_self a t)) b
        (h2 b (List.mem_cons_self b u)) hhead
      rw [hab, ih u (fun x hx => h1 x (List.mem_cons_of_mem _ hx))
        (fun x hx => h2 x (List.mem_cons_of_mem _ hx)) htail]

theorem natChars_inj {a b : Nat} (h : natChars a = natChars b) : a = b := by
  unfold natChars at h
  rw [natCharsAux_eq_digits a a (Nat.le_refl a),
    natCharsAux_eq_digits b b (Nat.le_refl b)] at h
  have hd := map_digitChar_inj _ _
    (fun x hx => Nat.digits_lt_base (by norm_num) hx)
    (fun x hx => Nat.digits_lt_base (by norm_num) hx) h
  have hc := congrArg (Nat.ofDigits 10) hd
  rw [Nat.ofDigits_digits, Nat.ofDigits_digits] at hc
  exact_mod_cast hc

theorem freshName_inj_neg {d1 d2 : Int} (h1 : d1 < 0) (h2 : d2 < 0)
    (h : freshName d1 = freshName d2) : d1 = d2 := by
  unfold freshName at h
  injection h with h
  injection h with hhead htail
  have := natChars_inj htail
  omega

/-! Round-trip direction from a positional value: fresh synthetic names. -/

theorem lookupA_map_pair_self {α β : Type} [DecidableEq α] (g : α → β) :
    ∀ (ds : List α) (d : α), d ∈ ds →
    lookupA (ds.map (fun x => (x, g x))) d = some (g d) := by
  intro ds
  induction ds with
  | nil =>
    intro d hd
    cases hd
  | cons x t ih =>
    intro d hd
    rw [List.map_cons]
    show (if x = d then some (g x) else lookupA (t.map (fun x => (x, g x))) d) = some (g d)
    by_cases hx : x = d
    · rw [if_pos hx, hx]
    · rw [if_neg hx]
      refine ih d ?_
      rcases List.mem_cons.mp hd with h | h
      · exact absurd h.symm hx
      · exact h

theorem lookupA_map_pair_none {α β : Type} [DecidableEq α] (g : α → β) :
    ∀ (ds : List α) (d : α), d ∉ ds →
    lookupA (ds.map (fun x => (x, g x))) d = none := by
  intro ds
  induction ds with
  | nil =>
    intro d _
    rfl
  | cons x t ih =>
    intro d hd
    rw [List.map_cons]
    show (if x = d then some (g x) else lookupA (t.map (fun x => (x, g x))) d) = none
    rw [if_neg (fun hc => hd (by rw [← hc]; exact List.mem_cons_self x t)),
      ih d (fun hc => hd (List.mem_cons_of_mem _ hc))]

theorem lookupA_map_fresh (bds : List Int) (d : Int) (hneg : ∀ x ∈ bds, x < 0)
    (hd : d < 0) (hmem : d ∈ bds) :
    lookupA (bds.map (fun x => (freshName x, x))) (freshName d) = some d := by
  induction bds with
  | nil => cases hmem
  | cons x t ih =>
    rw [List.map_cons]
    show (if freshName x = freshName d then some x
      else lookupA (t.map (fun x => (freshName x, x))) (freshName d)) = some d
    by_cases hx : x = d
    · rw [if_pos (by rw [hx]), hx]
    · rw [if_neg (fun hc =>
        hx (freshName_inj_neg (hneg x (List.mem_cons_self x t)) hd hc))]
      refine ih (fun y hy => hneg y (List.mem_cons_of_mem _ hy)) ?_
      rcases List.mem_cons.mp hmem with h | h
      · exact absurd h.symm hx
      · exact h

theorem lookupA_map_fresh_none (bds : List Int) (d : Int) (hneg : ∀ x ∈ bds, x < 0)
    (hd : d < 0) (hmem : d ∉ bds) :
    lookupA (bds.map (fun x => (freshName x, x))) (freshName d) = none := by
  induction bds with
  | nil => rfl
  | cons x t ih =>
    rw [List.map_cons]
    show (if freshName x = freshName d then some x
      else lookupA (t.map (fun x => (freshName x, x))) (freshName d)) = none
    rw [if_neg (fun hc => hmem
      ((freshName_inj_neg (hneg x (List.mem_cons_self x t)) hd hc) ▸
        List.mem_cons_self x t))]
    exact ih (fun y hy => hneg y (List.mem_cons_of_mem _ hy))
      (fun hc => hmem (List.mem_cons_of_mem _ hc))

theorem dimState_request_fresh (pre : List Int) (d : Int)
    (hneg : ∀ x ∈ pre, x < 0) (hd : d < 0) (hmem : d ∉ pre) :
    (dimState pre).request none (some d) DimType.LOCAL =
      ((freshName d, d), dimState (pre ++ [d])) := by
  have hlk : lookupDimInFrames ((dimState pre).readFrames DimType.LOCAL) d = none := by
    show lookupDimInFrames [dimFrame pre, globalFrame0] d = none
    simp only [lookupDimInFrames, dimFrame]
    rw [lookupA_map_pair_none freshName pre d hmem]
    rfl
  rw [request_dim_fresh _ _ hlk]
  refine Prod.ext rfl ?_
  show (⟨[(dimFrame pre).write (freshName d) d], globalFrame0, some 0, none, -1⟩ :
    DimStack) = dimState (pre ++ [d])
  have hnot1 : freshName d ∉ keysOf (pre.map (fun x => (freshName x, x))) := by
    intro hc
    rw [keysOf] at hc
    obtain ⟨q, hq, hq2⟩ := List.mem_map.mp hc
    obtain ⟨x, hx, hx2⟩ := List.mem_map.mp hq
    rw [← hx2] at hq2
    exact hmem ((freshName_inj_neg (hneg x hx) hd hq2) ▸ hx)
  have hnot2 : d ∉ keysOf (pre.map (fun x => (x, freshName x))) := by
    intro hc
    rw [keysOf] at hc
    obtain ⟨q, hq, hq2⟩ := List.mem_map.mp hc
    obtain ⟨x, hx, hx2⟩ := List.mem_map.mp hq
    rw [← hx2] at hq2
    exact hmem (hq2 ▸ hx)
  have hwname : updA (pre.map (fun x => (freshName x, x))) (freshName d) d =
      (pre ++ [d]).map (fun x => (freshName x, x)) := by
    rw [updA_of_not_mem hnot1, List.map_append]
    rfl
  have hwdim : updA (pre.map (fun x => (x, freshName x))) d (freshName d) =
      (pre ++ [d]).map (fun x => (x, freshName x)) := by
    rw [updA_of_not_mem hnot2, List.map_append]
    rfl
  rw [show (dimFrame pre).write (freshName d) d = dimFrame (pre ++ [d]) from by
    unfold StackFrame.write dimFrame
    simp only [hwname, hwdim]]
  rfl

theorem resolveDims_dimState : ∀ (ds pre : List Int), (pre ++ ds).Nodup →
    (∀ x ∈ pre ++ ds, x < 0) →
    resolveDims ds [] DimType.LOCAL (dimState pre) =
      (ds.map (fun d => (d, freshName d)), dimState (pre ++ ds)) := by
  intro ds
  induction ds with
  | nil =>
    intro pre _ _
    simp [resolveDims]
  | cons d t ih =>
    intro pre hnd hneg
    have hmem : d ∉ pre := by
      rw [List.nodup_append] at hnd
      exact fun hm => hnd.2.2 hm (List.mem_cons_self d t)
    have hreq := dimState_request_fresh pre d
      (fun x hx => hneg x (List.mem_append_left _ hx))
      (hneg d (List.mem_append_right _ (List.mem_cons_self d t))) hmem
    rw [resolveDims_cons _ _ _ _ _ _ hreq]
    rw [ih (pre ++ [d]) (by rw [List.append_assoc]; exact hnd)
      (by rw [List.append_assoc]; exact hneg)]
    refine Prod.ext rfl ?_
    show dimState ((pre ++ [d]) ++ t) = dimState (pre ++ d :: t)
    rw [List.append_assoc]
    rfl

theorem dimState_request_name (bds : List Int) (d : Int) (hneg : ∀ x ∈ bds, x < 0)
    (hd : d < 0) (hmem : d ∈ bds) :
    (dimState bds).request (some (freshName d)) none DimType.LOCAL =
      ((freshName d, d), dimState bds) := by
  have hlk : lookupInFrames ((dimState bds).readFrames DimType.LOCAL) (freshName d) =
      some d := by
    show lookupInFrames [dimFrame bds, globalFrame0] (freshName d) = some d
    simp only [lookupInFrames, dimFrame]
    rw [lookupA_map_fresh bds d hneg hd hmem]
  rw [request_local_found _ _ _ hlk]
  refine Prod.ext rfl ?_
  show (⟨[(dimFrame bds).write (freshName d) d], globalFrame0, some 0, none, -1⟩ :
    DimStack) = dimState bds
  rw [write_self (dimFrame bds) (freshName d) d
    (lookupA_map_fresh bds d hneg hd hmem)
    (lookupA_map_pair_self freshName bds d hmem)]
  rfl

theorem resolveNames_dimState : ∀ (bds2 bds : List Int), (∀ x ∈ bds, x < 0) →
    (∀ d ∈ bds2, d ∈ bds) →
    resolveNames (bds2.map freshName) [] DimType.LOCAL (dimState bds) =
      (bds2.map (fun d => (freshName d, d)), dimState bds) := by
  intro bds2
  induction bds2 with
  | nil =>
    intro bds _ _
    simp [resolveNames]
  | cons d t ih =>
    intro bds hneg hsub
    have hd : d < 0 := hneg d (hsub d (List.mem_cons_self d t))
    have hreq := dimState_request_name bds d hneg hd (hsub d (List.mem_cons_self d t))
    rw [List.map_cons, resolveNames_cons _ _ _ _ _ _ hreq]
    rw [ih bds hneg (fun x hx => hsub x (List.mem_cons_of_mem _ hx))]
    rfl

theorem batchDims_neg {bs : List Nat} {d : Int} (h : d ∈ batchDims bs) : d < 0 := by
  obtain ⟨i, hi, hd, -⟩ := mem_batchDims.mp h
  omega

theorem batchDims_nodup (bs : List Nat) : (batchDims bs).Nodup := by
  unfold batchDims
  refine List.Nodup.filterMap ?_ (List.nodup_range _)
  intro a b c hca hcb
  by_cases ha : 1 < bs.getD a 0
  · by_cases hb : 1 < bs.getD b 0
    · rw [if_pos ha, Option.mem_def] at hca
      rw [if_pos hb, Option.mem_def] at hcb
      injection hca.symm with hca
      injection hcb.symm with hcb
      omega
    · rw [if_neg hb] at hcb
      exact absurd hcb (by simp)
  · rw [if_neg ha] at hca
    exact absurd hca (by simp)

theorem getD_reverse {α : Type} (l : List α) (j : Nat) (d : α) (h : j < l.length) :
    l.reverse.getD j d = l.getD (l.length - 1 - j) d := by
  rw [List.getD_eq_getElem _ _ (by simpa using h),
    List.getD_eq_getElem _ _ (by omega), List.getElem_reverse]

theorem dimSize_materialShape (inputs : List (String × Nat)) (i : Nat)
    (hi : i < inputs.length) :
    dimSize (materialShape inputs) (-((i : Int) + 1)) = (inputs.map Prod.snd).getD i 0 := by
  unfold dimSize materialShape
  have hlen : (inputs.map Prod.snd).reverse.length = inputs.length := by simp
  rw [hlen]
  rw [show (((inputs.length : Nat) : Int) + -((i : Int) + 1)).toNat =
    inputs.length - 1 - i from by omega]
  rw [getD_reverse _ _ _ (by rw [List.length_map]; omega)]
  rw [show (List.map Prod.snd inputs).length - 1 - (inputs.length - 1 - i) = i from by
    rw [List.length_map]; omega]

/-- C3 (amended): on batch axes of size exceeding 1 the two conversions are
mutually inverse.  From a clean scope, converting a named value (distinct
names, all sizes > 1) to positional assigns consecutive dims, and converting
the materialised positional value back recovers exactly the original
name-to-size mapping; in the other direction, converting a positional value to
named names exactly its batch dims (sizes > 1) and converting the resulting
named value back to positional returns every batch dim to its own position.
Named axes of size 1 are dropped by the to-named conversion (see the
counterexample), so the inverse law holds on the size->1 batch axes only. -/
theorem claim3_round_trip (inputs : List (String × Nat)) (shape : List Nat)
    (hnd : (inputs.map Prod.fst).Nodup) (hsz : ∀ p ∈ inputs, 1 < p.2) :
    (pyro_to_data inputs [] DimType.LOCAL (cleanWith []) =
      Except.ok (chainNTD 0 (inputs.map Prod.fst), cleanWith (inputs.map Prod.fst))) ∧
    (pyro_to_funsor (materialShape inputs) none [] DimType.LOCAL
        (cleanWith (inputs.map Prod.fst)) =
      Except.ok (namedBack inputs, cleanWith (inputs.map Prod.fst))) ∧
    (∀ p ∈ inputs, ∃ d : Int,
      lookupA (chainNTD 0 (inputs.map Prod.fst)) p.1 = some d ∧
      lookupA (namedBack inputs) d = some p.1 ∧
      dimSize (materialShape inputs) d = p.2) ∧
    (pyro_to_funsor shape none [] DimType.LOCAL (cleanWith []) =
      Except.ok ((batchDims shape).map (fun d => (d, freshName d)),
        dimState (batchDims shape))) ∧
    (pyro_to_data ((batchDims shape).map (fun d => (freshName d, dimSize shape d))) []
        DimType.LOCAL (dimState (batchDims shape)) =
      Except.ok ((batchDims shape).map (fun d => (freshName d, d)),
        dimState (batchDims shape))) ∧
    (∀ d ∈ batchDims shape,
      lookupA ((batchDims shape).map (fun d => (d, freshName d))) d =
        some (freshName d) ∧
      lookupA ((batchDims shape).map (fun d => (freshName d, d))) (freshName d) =
        some d) := by
  have hms : ∀ x ∈ materialShape inputs, 1 < x := by
    intro x hx
    unfold materialShape at hx
    rw [List.mem_reverse] at hx
    obtain ⟨p, hp, hpx⟩ := List.mem_map.mp hx
    exact hpx ▸ hsz p hp
  have hmslen : (materialShape inputs).length = inputs.length := by
    unfold materialShape
    simp
  have hnslen : (inputs.map Prod.fst).length = inputs.length := List.length_map _ _
  have hbd : batchDims (materialShape inputs) =
      (List.range (materialShape inputs).length).map
        (fun i : Nat => (i : Int) - ((materialShape inputs).length : Int)) :=
    batchDims_all_gt _ hms
  have hmemA : ∀ i : Nat, i < inputs.length →
      -((i : Int) + 1) ∈ batchDims (materialShape inputs) := by
    intro i hi
    rw [hbd]
    refine List.mem_map.mpr ⟨(materialShape inputs).length - 1 - i, ?_, ?_⟩
    · rw [List.mem_range]
      omega
    · rw [hmslen]
      omega
  have hnegS : ∀ x ∈ batchDims shape, x < 0 := fun x hx => batchDims_neg hx
  have hndS : (batchDims shape).Nodup := batchDims_nodup shape
  refine ⟨?_, ?_, ?_, ?_, ?_, ?_⟩
  · rw [pyro_to_data_empty_map,
      resolve_clean (inputs.map Prod.fst) [] (by simpa using hnd)]
    rfl
  · rw [pyro_to_funsor_empty_map]
    rw [show pySliceStop (materialShape inputs)
        (((materialShape inputs).length : Int) - (eventDim none : Int)) =
      materialShape inputs from pySliceStop_full _]
    rw [resolveDims_cleanWith (inputs.map Prod.fst) hnd (batchDims (materialShape inputs))
      (by
        intro d hd
        obtain ⟨i, hi, hdi, -⟩ := mem_batchDims.mp hd
        refine ⟨(materialShape inputs).length - 1 - i, ?_, ?_⟩
        · rw [hnslen]
          omega
        · omega)]
    rfl
  · intro p hp
    obtain ⟨i, hi, hpi⟩ := List.getElem_of_mem hp
    have hcast : -(((0 : Nat) : Int) + i + 1) = -((i : Int) + 1) := by push_cast; ring
    refine ⟨-((i : Int) + 1), ?_, ?_, ?_⟩
    · have hl := lookupA_chainNTD_getD 0 (inputs.map Prod.fst) i hnd (by rw [hnslen]; exact hi)
      rw [hcast] at hl
      rwa [show (inputs.map Prod.fst).getD i "" = p.1 from by
        rw [List.getD_eq_getElem _ _ (by rw [hnslen]; exact hi), List.getElem_map, hpi]] at hl
    · unfold namedBack
      rw [lookupA_map_pair_self
        (fun d => (inputs.map Prod.fst).getD ((-d).toNat - 1) "") _ _ (hmemA i hi)]
      rw [show (-(-((i : Int) + 1))).toNat - 1 = i from by omega]
      rw [List.getD_eq_getElem _ _ (by rw [hnslen]; exact hi), List.getElem_map, hpi]
    · rw [dimSize_materialShape inputs i hi]
      rw [List.getD_eq_getElem _ _ (by rw [List.length_map]; exact hi),
        List.getElem_map, hpi]
  · rw [pyro_to_funsor_empty_map]
    rw [show pySliceStop shape ((shape.length : Int) - (eventDim none : Int)) =
      shape from pySliceStop_full _]
    rw [show (cleanWith [] : DimStack) = dimState [] from rfl]
    rw [resolveDims_dimState (batchDims shape) [] (by simpa using hndS)
      (by simpa using hnegS)]
    rfl
  · rw [pyro_to_data_empty_map]
    rw [show ((batchDims shape).map
        (fun d => (freshName d, dimSize shape d))).map Prod.fst =
      (batchDims shape).map freshName from by rw [List.map_map]; rfl]
    rw [resolveNames_dimState (batchDims shape) (batchDims shape) hnegS (fun x hx => hx)]
  · intro d hd
    exact ⟨lookupA_map_pair_self freshName _ _ hd,
      lookupA_map_fresh _ _ hnegS (hnegS d hd) hd⟩

/-- C3 counterexample: a named axis of size 1 is not recovered by the round
trip.  The named value with the single input "a" of size 1 converts to
positional with "a" assigned dim -1, but the materialised positional value has
shape (1,), whose batch-dim set is empty, so converting back to named yields an
empty dim-to-name map: the name-to-size mapping of the original value is lost,
refuting exact preservation as claimed. -/
theorem claim3_counterexample :
    pyro_to_data [("a", 1)] [] DimType.LOCAL (cleanWith []) =
      Except.ok ([("a", -1)], cleanWith ["a"]) ∧
    pyro_to_funsor (materialShape [("a", 1)]) none [] DimType.LOCAL (cleanWith ["a"]) =
      Except.ok ([], cleanWith ["a"]) ∧
    ([("a", (1 : Nat))] : List (String × Nat)) ≠ [] := by
  refine ⟨rfl, rfl, by decide⟩

theorem claim3_witness :
    (pyro_to_data [("x", 2), ("y", 3)] [] DimType.LOCAL (cleanWith []) =
      Except.ok (chainNTD 0 ["x", "y"], cleanWith ["x", "y"])) ∧
    (pyro_to_funsor (materialShape [("x", 2), ("y", 3)]) none [] DimType.LOCAL
        (cleanWith ["x", "y"]) =
      Except.ok (namedBack [("x", 2), ("y", 3)], cleanWith ["x", "y"])) ∧
    (pyro_to_funsor [2, 1, 3] none [] DimType.LOCAL (cleanWith []) =
      Except.ok ((batchDims [2, 1, 3]).map (fun d => (d, freshName d)),
        dimState (batchDims [2, 1, 3]))) := by
  have h := claim3_round_trip [("x", 2), ("y", 3)] [2, 1, 3] (by decide) (by decide)
  exact ⟨h.1, h.2.1, h.2.2.2.1⟩

end PyroFunsor
